import Mathlib

/-!
Verification of the core of the `task_manager_cli` repository: a shallow
embedding in Lean of the Repository layer (`src/db/task_manager/operations.rs`,
`src/db/task_manager/models.rs`), the Application State layer
(`src/task_manager/app.rs`) and the input-mode event loop
(`src/task_manager/ui.rs`), together with theorems settling the frozen claims
about the natural-language specification.

The SQLite store behind the diesel connection pool is modelled as a `Store`
value holding the two tables as lists plus the autoincrement counters for the
primary keys. Timestamps (`chrono::Local::now()` formatted as a string in the
Rust code) are passed in explicitly as `now : String` arguments.
-/

namespace TaskManager

/-- Row of the `topic` table (struct `Topic` in `models.rs`). -/
structure Topic where
  id : Int
  name : String
  description : String
  created_at : String
  updated_at : String
deriving DecidableEq, Repr

/-- Row of the `task` table (struct `Task` in `models.rs`). -/
structure Task where
  id : Int
  topic_id : Int
  name : String
  description : String
  completed : Bool
  favourite : Bool
  created_at : String
  updated_at : String
deriving DecidableEq, Repr

/-- Changeset applied by `diesel::update` (struct `TaskUpdate` in `models.rs`);
a `none` field is left untouched by the update. -/
structure TaskUpdate where
  name : Option String
  description : Option String
  completed : Option Bool
  favourite : Option Bool
  updated_at : String
deriving DecidableEq, Repr

/-- The durable SQLite store: the two tables plus the autoincrement state of
their integer primary keys. -/
structure Store where
  topics : List Topic
  tasks : List Task
  nextTopicId : Int
  nextTaskId : Int
deriving DecidableEq, Repr

/-- Order used by `ORDER BY topic.id` in the queries. -/
def topicIdLe (a b : Topic) : Prop := a.id ≤ b.id

/-- Order used by `ORDER BY task.id` in the queries. -/
def taskIdLe (a b : Task) : Prop := a.id ≤ b.id

instance : DecidableRel topicIdLe := fun a b => inferInstanceAs (Decidable (a.id ≤ b.id))

instance : DecidableRel taskIdLe := fun a b => inferInstanceAs (Decidable (a.id ≤ b.id))

instance : IsTotal Topic topicIdLe := ⟨fun a b => Int.le_total a.id b.id⟩

instance : IsTotal Task taskIdLe := ⟨fun a b => Int.le_total a.id b.id⟩

instance : IsTrans Topic topicIdLe := ⟨fun _ _ _ h h2 => le_trans h h2⟩

instance : IsTrans Task taskIdLe := ⟨fun _ _ _ h h2 => le_trans h h2⟩

/-- Result of `ORDER BY topic.id` over the table contents. -/
def sortTopics (l : List Topic) : List Topic := List.insertionSort topicIdLe l

/-- Result of `ORDER BY task.id` over the table contents. -/
def sortTasks (l : List Task) : List Task := List.insertionSort taskIdLe l

namespace DbOperations

/-- The `special_topics` set built in `DbOperations::new`: it contains exactly
`"Favourites"` and `"Default"` (note: not `"Completed"`). -/
def is_special_topic (name : String) : Bool :=
  name == "Favourites" || name == "Default"

/-- `DbOperations::load_topics`: all topic rows ordered by id ascending. -/
def load_topics (s : Store) : List Topic := sortTopics s.topics

/-- `DbOperations::add_topic`: inserts a row with the given timestamp for both
created and updated fields. The Rust code then re-reads the row with the
greatest id (`ORDER BY id DESC LIMIT 1`), which under the autoincrement primary
key is the row just inserted. -/
def add_topic (s : Store) (now name description : String) : Topic × Store :=
  let row : Topic :=
    { id := s.nextTopicId, name := name, description := description,
      created_at := now, updated_at := now }
  (row, { s with topics := s.topics ++ [row], nextTopicId := s.nextTopicId + 1 })

/-- `DbOperations::delete_topic`: reads the topic first (`first` fails with a
not-found error when the id is absent); if its name is special, returns 0 and
deletes nothing; otherwise deletes the rows with that id and returns the count. -/
def delete_topic (s : Store) (topic_id : Int) : Except String (Nat × Store) :=
  match s.topics.find? (fun t => t.id == topic_id) with
  | none => .error "NotFound"
  | some tp =>
    if is_special_topic tp.name then
      .ok (0, s)
    else
      .ok ((s.topics.filter (fun t => t.id == topic_id)).length,
           { s with topics := s.topics.filter (fun t => !(t.id == topic_id)) })

/-- `DbOperations::load_tasks`: the three-way branch on the current topic name,
each result ordered by task id ascending. -/
def load_tasks (s : Store) (current_topic : Topic) : List Task :=
  if current_topic.name == "Favourites" then
    sortTasks (s.tasks.filter (fun t => t.favourite))
  else if current_topic.name == "Default" then
    sortTasks s.tasks
  else
    sortTasks (s.tasks.filter (fun t => t.topic_id == current_topic.id))

/-- `DbOperations::add_task`: inserts with `completed = false`,
`favourite = false` and the current timestamp, then re-reads the row with the
greatest id, which is the row just inserted. -/
def add_task (s : Store) (now : String) (topic_id : Int) (name description : String) :
    Task × Store :=
  let row : Task :=
    { id := s.nextTaskId, topic_id := topic_id, name := name,
      description := description, completed := false, favourite := false,
      created_at := now, updated_at := now }
  (row, { s with tasks := s.tasks ++ [row], nextTaskId := s.nextTaskId + 1 })

/-- Application of a diesel `AsChangeset` update to one task row: each `none`
field keeps the stored value; `updated_at` is always written. -/
def applyUpdate (u : TaskUpdate) (t : Task) : Task :=
  { t with
    name := u.name.getD t.name
    description := u.description.getD t.description
    completed := u.completed.getD t.completed
    favourite := u.favourite.getD t.favourite
    updated_at := u.updated_at }

/-- `DbOperations::update_task`: applies the changeset to the rows with the
given id, then re-reads the row from the store (erroring when absent). -/
def update_task (s : Store) (task_id : Int) (u : TaskUpdate) :
    Except String (Task × Store) :=
  let s2 : Store :=
    { s with tasks := s.tasks.map (fun t => if t.id == task_id then applyUpdate u t else t) }
  match s2.tasks.find? (fun t => t.id == task_id) with
  | none => .error "NotFound"
  | some t => .ok (t, s2)

/-- `DbOperations::toggle_task_completion`: read the current row, write an
update flipping only `completed` (stamping `updated_at`), re-read and return. -/
def toggle_task_completion (s : Store) (now : String) (task_id : Int) :
    Except String (Task × Store) :=
  match s.tasks.find? (fun t => t.id == task_id) with
  | none => .error "NotFound"
  | some current_task =>
    let u : TaskUpdate :=
      { name := none, description := none,
        completed := some (!current_task.completed), favourite := none,
        updated_at := now }
    let s2 : Store :=
      { s with tasks := s.tasks.map (fun t => if t.id == task_id then applyUpdate u t else t) }
    match s2.tasks.find? (fun t => t.id == task_id) with
    | none => .error "NotFound"
    | some t => .ok (t, s2)

/-- `DbOperations::toggle_task_favourite`: read the current row, write an
update flipping only `favourite` (stamping `updated_at`), re-read and return. -/
def toggle_task_favourite (s : Store) (now : String) (task_id : Int) :
    Except String (Task × Store) :=
  match s.tasks.find? (fun t => t.id == task_id) with
  | none => .error "NotFound"
  | some current_task =>
    let u : TaskUpdate :=
      { name := none, description := none,
        completed := none, favourite := some (!current_task.favourite),
        updated_at := now }
    let s2 : Store :=
      { s with tasks := s.tasks.map (fun t => if t.id == task_id then applyUpdate u t else t) }
    match s2.tasks.find? (fun t => t.id == task_id) with
    | none => .error "NotFound"
    | some t => .ok (t, s2)

/-- `DbOperations::delete_task`: deletes the rows with the given id and returns
the count of deleted rows. -/
def delete_task (s : Store) (task_id : Int) : Nat × Store :=
  ((s.tasks.filter (fun t => t.id == task_id)).length,
   { s with tasks := s.tasks.filter (fun t => !(t.id == task_id)) })

end DbOperations

/-- The input modes of the application (enum `InputMode` in
`src/task_manager/app.rs`). `DeleteTask` is declared in the enum but is given
no arm in the event loop of `ui.rs`. -/
inductive InputMode where
  | Normal
  | AddingTask
  | AddingTaskName
  | AddingTaskDescription
  | EditingTask
  | DeleteTask
  | AddingTopic
  | Help
deriving DecidableEq, Repr

/-- The overall application state (struct `App` in `src/task_manager/app.rs`).
The `db_ops` handler with its connection pool is modelled by the `store`
field holding the durable state it reaches. -/
structure App where
  store : Store
  topics : List Topic
  selected_topic : Nat
  tasks : List Task
  selected : Nat
  input_mode : InputMode
  input : String
  task_name_input : String
  task_description_input : String
  logs : List String
  log_offset : Nat
  expanded : List Int
  show_help : Bool
deriving DecidableEq, Repr

/-- Rust `String::pop`: removes the last character (the popped value is unused
by all call sites). -/
def popChar (s : String) : String := String.mk s.toList.dropLast

/-- Rust `str::len` of the description: the UTF-8 byte length. -/
def utf8Len (s : String) : Nat := (s.toList.map Char.utf8Size).sum

/-- Model of `iter().enumerate().find(p)` returning the index of the first
element satisfying the predicate. -/
def findIdxFrom (p : Topic → Bool) : List Topic → Option Nat
  | [] => none
  | t :: ts => if p t then some 0 else (findIdxFrom p ts).map (· + 1)

namespace App

/-- `App::load_tasks`: clear the cache, return early when there are no topics,
otherwise reload the view for the current topic and clamp `selected` downward
when it fell off the end of a non-empty list. The Rust code indexes
`self.topics[self.selected_topic]`; the out-of-bounds case (a panic in Rust)
is modelled as leaving the state unchanged. -/
def load_tasks (a : App) : App :=
  if a.topics.isEmpty then { a with tasks := [] }
  else
    match a.topics.get? a.selected_topic with
    | none => { a with tasks := [] }
    | some current_topic =>
      let ts := DbOperations.load_tasks a.store current_topic
      let sel := if ts.length ≤ a.selected ∧ ts ≠ [] then ts.length - 1 else a.selected
      { a with tasks := ts, selected := sel }

/-- `App::load_topics`: replace the topic cache with a fresh read. -/
def load_topics (a : App) : App :=
  { a with topics := DbOperations.load_topics a.store }

/-- `App::add_log`: append a formatted entry and reset the scroll offset. -/
def add_log (a : App) (now level msg : String) : App :=
  { a with logs := a.logs ++ [now ++ " [" ++ level ++ "] " ++ msg], log_offset := 0 }

/-- `App::add_task_with_details`: silently a no-op when the current topic is
Favourites; otherwise insert, log and reload. Out-of-bounds indexing of the
topic cache (a panic in Rust) is modelled as leaving the state unchanged. -/
def add_task_with_details (now : String) (name desc : String) (a : App) : App :=
  match a.topics.get? a.selected_topic with
  | none => a
  | some current_topic =>
    if current_topic.name == "Favourites" then a
    else
      let r := DbOperations.add_task a.store now current_topic.id name desc
      let a := { a with store := r.2 }
      let a := a.add_log now "INFO" ("Added task: " ++ name ++ " - " ++ desc)
      a.load_tasks

/-- `App::add_task`: silently a no-op when the current topic is Favourites;
otherwise synthesize the display name from the description (truncated to its
first 20 characters when its byte length exceeds 20, with the fixed prefix
label), insert, log and reload. -/
def add_task (now : String) (desc : String) (a : App) : App :=
  match a.topics.get? a.selected_topic with
  | none => a
  | some current_topic =>
    if current_topic.name == "Favourites" then a
    else
      let name :=
        if utf8Len desc > 20 then "Task " ++ String.mk (desc.toList.take 20)
        else "Task " ++ desc
      let r := DbOperations.add_task a.store now current_topic.id name desc
      let a := { a with store := r.2 }
      let a := a.add_log now "INFO" ("Added task: " ++ desc)
      a.load_tasks

/-- `App::add_topic`: insert a topic with empty description and reload the
topic cache. -/
def add_topic (now : String) (name : String) (a : App) : App :=
  let r := DbOperations.add_topic a.store now name ""
  ({ a with store := r.2 }).load_topics

/-- `App::toggle_task`: toggle completion of the task at `selected`; a no-op
when the task list is empty. The `Option String` component is the propagated
query error, `none` on success. -/
def toggle_task (now : String) (a : App) : App × Option String :=
  match a.tasks.get? a.selected with
  | none => (a, none)
  | some task =>
    match DbOperations.toggle_task_completion a.store now task.id with
    | .error e => (a, some e)
    | .ok r =>
      let a := { a with store := r.2 }
      let a := a.add_log now "INFO" ("Toggled task id: " ++ toString task.id)
      (a.load_tasks, none)

/-- `App::toggle_favourite`: toggle the favourite flag of the task at
`selected`; a no-op when the task list is empty. -/
def toggle_favourite (now : String) (a : App) : App × Option String :=
  match a.tasks.get? a.selected with
  | none => (a, none)
  | some task =>
    match DbOperations.toggle_task_favourite a.store now task.id with
    | .error e => (a, some e)
    | .ok r =>
      let a := { a with store := r.2 }
      let a := a.add_log now "INFO" ("Toggled favourite for task id: " ++ toString task.id)
      (a.load_tasks, none)

/-- `App::delete_task`: delete the task at `selected` (no-op when the list is
empty), log, reload, then decrement `selected` when it is positive and now out
of bounds. -/
def delete_task (now : String) (a : App) : App :=
  match a.tasks.get? a.selected with
  | none => a
  | some task =>
    let r := DbOperations.delete_task a.store task.id
    let a := { a with store := r.2 }
    let a := a.add_log now "INFO" ("Deleted task id: " ++ toString task.id)
    let a := a.load_tasks
    if 0 < a.selected ∧ a.tasks.length ≤ a.selected then
      { a with selected := a.selected - 1 }
    else a

/-- `App::delete_topic`: refuse to delete the Favourites topic; otherwise ask
the repository (which itself refuses special topics), reload the topic cache,
reset `selected_topic` to 0 and reload tasks. Out-of-bounds indexing of the
topic cache (a panic in Rust) is modelled as leaving the state unchanged. -/
def delete_topic (a : App) : App × Option String :=
  match a.topics.get? a.selected_topic with
  | none => (a, none)
  | some current_topic =>
    if current_topic.name == "Favourites" then (a, none)
    else
      match DbOperations.delete_topic a.store current_topic.id with
      | .error e => (a, some e)
      | .ok r =>
        let a := { a with store := r.2 }
        let a := a.load_topics
        let a := { a with selected_topic := 0 }
        (a.load_tasks, none)

/-- `App::edit_task`: log the task about to be edited, then update only the
description (preserving name, completed and favourite), log and reload; a
no-op (after the first log) when the task list is empty. -/
def edit_task (now : String) (desc : String) (a : App) : App × Option String :=
  let a := a.add_log now "INFO" ("Task: " ++ reprStr (a.tasks.get? a.selected))
  match a.tasks.get? a.selected with
  | none => (a, none)
  | some task =>
    let u : TaskUpdate :=
      { name := some task.name, description := some desc,
        completed := some task.completed, favourite := some task.favourite,
        updated_at := now }
    match DbOperations.update_task a.store task.id u with
    | .error e => (a, some e)
    | .ok r =>
      let a := { a with store := r.2 }
      let a := a.add_log now "INFO" ("Successfully edited task, with id: " ++ toString task.id)
      (a.load_tasks, none)

/-- `App::current_topic_is_special`: the current topic is named Favourites or
Default (false when the topic cache is empty). -/
def current_topic_is_special (a : App) : Bool :=
  if a.topics.isEmpty then false
  else
    match a.topics.get? a.selected_topic with
    | none => false
    | some t => t.name == "Favourites" || t.name == "Default"

/-- `App::current_topic_is_favourites` (defined in the earlier `src/app.rs`
and called by the event loop in `src/task_manager/ui.rs`): the current topic
is named Favourites (false when the topic cache is empty). -/
def current_topic_is_favourites (a : App) : Bool :=
  if a.topics.isEmpty then false
  else
    match a.topics.get? a.selected_topic with
    | none => false
    | some t => t.name == "Favourites"

/-- `App::reset_task_inputs`: clear the two task-creation buffers. -/
def reset_task_inputs (a : App) : App :=
  { a with task_name_input := "", task_description_input := "" }

/-- One of the three bootstrap blocks of `App::new`: when no topic of the
given name is cached, create it and reload the topic cache. -/
def ensureTopic (now name : String) (a : App) : App :=
  if a.topics.any (fun t => t.name == name) then a
  else (a.add_topic now name).load_topics

/-- The freshly constructed `App` record of `App::new`, before the bootstrap:
empty caches, zero indices, Normal mode, empty buffers. -/
def initialApp (s0 : Store) : App :=
  { store := s0, topics := [], selected_topic := 0, tasks := [], selected := 0,
    input_mode := .Normal, input := "", task_name_input := "",
    task_description_input := "", logs := [], log_offset := 0,
    expanded := [], show_help := false }

/-- `App::new` minus the connection plumbing: start from the given store
contents, load topics, bootstrap the three special topics in check order
(each created and reloaded only when absent), log, select the Favourites
topic (keeping index 0 when not found), and load its tasks. -/
def appNew (s0 : Store) (now : String) : App :=
  let a := initialApp s0
  let a := a.load_topics
  let a := ensureTopic now "Favourites" a
  let a := ensureTopic now "Default" a
  let a := ensureTopic now "Completed" a
  let a := a.add_log now "INFO" "Topics loaded"
  let a :=
    match findIdxFrom (fun t => t.name == "Favourites") a.topics with
    | some i => { a with selected_topic := i }
    | none => a
  let a := a.load_tasks
  let a := a.add_log now "INFO" "Tasks loaded"
  a.add_log now "INFO" "Application started"

end App

/-- The key events consumed by the event loop in `src/task_manager/ui.rs`
(the `crossterm::event::KeyCode` constructors it matches on). -/
inductive Key where
  | char (c : Char)
  | enter
  | esc
  | tab
  | backspace
  | up
  | down
  | left
  | right
  | pageUp
  | pageDown
deriving DecidableEq, Repr

/-- The `InputMode::Normal` arm of the event loop in `ui.rs`. The arms that
report a repository error cannot fire in this model (the modelled operations
only fail on ids absent from the store, which the cache-consistency of the
reachable states rules out); the error branch of each fallible operation is
still modelled and appends the ERROR log entry of `ui.rs`. The character
bindings are dispatched here; `stepNormal` below handles the non-character
keys (the Rust `KeyCode::Down | KeyCode::Char('j')` double patterns appear as
one binding here and one in `stepNormal`). -/
def stepNormalChar (now : String) (a : App) : Char → App
  | 'q' => a
  | 'a' =>
    if a.current_topic_is_favourites then a
    else { a with input_mode := .AddingTaskName, input := "" }
  | 'd' => a.delete_task now
  | 'e' => { a with input_mode := .EditingTask, input := "" }
  | 'f' =>
    match a.toggle_favourite now with
    | (a2, none) => a2
    | (a2, some _) => a2.add_log now "ERROR" "Failed to toggle favourite"
  | 'H' => { a with input_mode := .Help, show_help := !a.show_help }
  | 't' =>
    match a.toggle_task now with
    | (a2, none) => a2
    | (a2, some _) => a2.add_log now "ERROR" "Failed to toggle task"
  | 'j' => if a.selected < a.tasks.length - 1 then { a with selected := a.selected + 1 } else a
  | 'k' => if 0 < a.selected then { a with selected := a.selected - 1 } else a
  | 'h' =>
    if 0 < a.selected_topic then
      let a := { a with selected_topic := a.selected_topic - 1 }
      let a := a.load_tasks
      { a with selected := 0 }
    else a
  | 'l' =>
    if a.selected_topic < a.topics.length - 1 then
      let a := { a with selected_topic := a.selected_topic + 1 }
      let a := a.load_tasks
      { a with selected := 0 }
    else a
  | 'N' => { a with input_mode := .AddingTopic, input := "" }
  | 'X' =>
    if a.current_topic_is_favourites then a
    else
      match a.delete_topic with
      | (a2, none) => a2
      | (a2, some _) => a2.add_log now "ERROR" "Failed to delete topic"
  | _ => a

/-- The non-character key bindings of the `InputMode::Normal` arm. -/
def stepNormal (now : String) (a : App) : Key → App
  | .char c => stepNormalChar now a c
  | .enter =>
    match a.tasks.get? a.selected with
    | none => a
    | some task =>
      if a.expanded.contains task.id then { a with expanded := a.expanded.erase task.id }
      else { a with expanded := task.id :: a.expanded }
  | .down => if a.selected < a.tasks.length - 1 then { a with selected := a.selected + 1 } else a
  | .up => if 0 < a.selected then { a with selected := a.selected - 1 } else a
  | .left =>
    if 0 < a.selected_topic then
      let a := { a with selected_topic := a.selected_topic - 1 }
      let a := a.load_tasks
      { a with selected := 0 }
    else a
  | .right =>
    if a.selected_topic < a.topics.length - 1 then
      let a := { a with selected_topic := a.selected_topic + 1 }
      let a := a.load_tasks
      { a with selected := 0 }
    else a
  | .pageUp => { a with log_offset := a.log_offset + 1 }
  | .pageDown => if 0 < a.log_offset then { a with log_offset := a.log_offset - 1 } else a
  | _ => a

/-- The `InputMode::AddingTask` arm of the event loop: commit on a non-empty
buffer, return to Normal on Enter or cancellation, edit the buffer otherwise.
(`App::add_task` cannot fail in this model, so the ERROR log arm is dead.) -/
def stepAddingTask (now : String) (a : App) : Key → App
  | .enter =>
    let a := if a.input.isEmpty then a else a.add_task now a.input
    { a with input_mode := .Normal }
  | .esc => { a with input_mode := .Normal }
  | .char c => { a with input := a.input.push c }
  | .backspace => { a with input := popChar a.input }
  | _ => a

/-- The `InputMode::AddingTaskName` arm: advance to the description step only
when the name buffer is non-empty; cancellation returns to Normal (without
clearing the buffers). -/
def stepAddingTaskName (a : App) : Key → App
  | .enter =>
    if a.task_name_input.isEmpty then a
    else { a with input_mode := .AddingTaskDescription }
  | .esc => { a with input_mode := .Normal }
  | .char c => { a with task_name_input := a.task_name_input.push c }
  | .backspace => { a with task_name_input := popChar a.task_name_input }
  | _ => a

/-- The `InputMode::AddingTaskDescription` arm: commit when the name buffer is
non-empty (then clear the task buffers and return to Normal), Tab goes back to
the name step, cancellation returns to Normal without clearing the buffers. -/
def stepAddingTaskDescription (now : String) (a : App) : Key → App
  | .enter =>
    if a.task_name_input.isEmpty then a
    else
      let a := a.add_task_with_details now a.task_name_input a.task_description_input
      let a := a.reset_task_inputs
      { a with input_mode := .Normal }
  | .esc => { a with input_mode := .Normal }
  | .tab => { a with input_mode := .AddingTaskName }
  | .char c => { a with task_description_input := a.task_description_input.push c }
  | .backspace => { a with task_description_input := popChar a.task_description_input }
  | _ => a

/-- The `InputMode::EditingTask` arm. -/
def stepEditingTask (now : String) (a : App) : Key → App
  | .enter =>
    let a :=
      if a.input.isEmpty then a
      else
        match a.edit_task now a.input with
        | (a2, none) => a2
        | (a2, some _) => a2.add_log now "ERROR" "Failed to edit task"
    { a with input_mode := .Normal }
  | .esc => { a with input_mode := .Normal }
  | .char c => { a with input := a.input.push c }
  | .backspace => { a with input := popChar a.input }
  | _ => a

/-- The `InputMode::AddingTopic` arm. (`App::add_topic` cannot fail in this
model, so the success log entry is always appended on a non-empty commit.) -/
def stepAddingTopic (now : String) (a : App) : Key → App
  | .enter =>
    let a :=
      if a.input.isEmpty then a
      else
        let a := a.add_topic now a.input
        a.add_log now "INFO" ("Added topic: " ++ a.input)
    { a with input_mode := .Normal }
  | .esc => { a with input_mode := .Normal }
  | .char c => { a with input := a.input.push c }
  | .backspace => { a with input := popChar a.input }
  | _ => a

/-- The `InputMode::Help` arm: Esc or the help key hide the popup and return
to Normal; every other key is ignored. -/
def stepHelp (a : App) : Key → App
  | .esc => { a with show_help := false, input_mode := .Normal }
  | .char 'H' => { a with show_help := false, input_mode := .Normal }
  | _ => a

/-- One iteration of the event loop of `run` in `src/task_manager/ui.rs`:
dispatch the key event on the current input mode. `InputMode::DeleteTask` has
no arm in the source and is modelled as ignoring every event. -/
def step (now : String) (a : App) (k : Key) : App :=
  match a.input_mode with
  | .Normal => stepNormal now a k
  | .AddingTask => stepAddingTask now a k
  | .AddingTaskName => stepAddingTaskName a k
  | .AddingTaskDescription => stepAddingTaskDescription now a k
  | .EditingTask => stepEditingTask now a k
  | .DeleteTask => a
  | .AddingTopic => stepAddingTopic now a k
  | .Help => stepHelp a k

/-- A run of the event loop: each event paired with the wall-clock timestamp
string at which it is processed. -/
def steps (a : App) : List (String × Key) → App
  | [] => a
  | e :: es => steps (step e.1 a e.2) es

/-- The store of a freshly created database file: empty tables, autoincrement
counters at 1. -/
def emptyStore : Store :=
  { topics := [], tasks := [], nextTopicId := 1, nextTaskId := 1 }

/-! ### Generic list lemmas about id keys, sorting and filtering -/

theorem mem_sortTasks {l : List Task} {t : Task} : t ∈ sortTasks l ↔ t ∈ l :=
  List.mem_insertionSort taskIdLe

theorem mem_sortTopics {l : List Topic} {t : Topic} : t ∈ sortTopics l ↔ t ∈ l :=
  List.mem_insertionSort topicIdLe

theorem length_sortTasks (l : List Task) : (sortTasks l).length = l.length :=
  List.length_insertionSort taskIdLe l

theorem length_sortTopics (l : List Topic) : (sortTopics l).length = l.length :=
  List.length_insertionSort topicIdLe l

theorem perm_sortTasks (l : List Task) : (sortTasks l).Perm l :=
  List.perm_insertionSort taskIdLe l

theorem sorted_sortTasks (l : List Task) : (sortTasks l).Pairwise taskIdLe :=
  List.sorted_insertionSort taskIdLe l

/-- In a list whose keys are duplicate-free, two members with the same key are
equal. -/
theorem key_inj {α : Type} {f : α → Int} {l : List α}
    (hnd : (l.map f).Nodup) {x y : α} (hx : x ∈ l) (hy : y ∈ l) (hxy : f x = f y) :
    x = y :=
  List.inj_on_of_nodup_map hnd hx hy hxy

/-- In a list whose keys are duplicate-free, exactly one element carries the
key of a member. -/
theorem countP_key_eq_one {α : Type} {f : α → Int} {l : List α}
    (hnd : (l.map f).Nodup) {t : α} (ht : t ∈ l) :
    l.countP (fun u => f u == f t) = 1 := by
  induction l with
  | nil => cases ht
  | cons a l ih =>
    rw [List.map_cons, List.nodup_cons] at hnd
    rw [List.countP_cons]
    rcases List.mem_cons.mp ht with rfl | htl
    · have hz : l.countP (fun u => f u == f t) = 0 := by
        apply List.countP_eq_zero.mpr
        intro u hu
        simp only [beq_iff_eq]
        intro he
        exact hnd.1 (he ▸ List.mem_map_of_mem f hu)
      simp [hz]
    · have hne : (f a == f t) = false := by
        simp only [beq_eq_false_iff_ne, ne_eq]
        intro he
        exact hnd.1 (he ▸ List.mem_map_of_mem f htl)
      simp [ih hnd.2 htl, hne]

/-- In a list whose keys are duplicate-free, searching for the key of a member
finds that member. -/
theorem find?_key_eq_some {α : Type} {f : α → Int} {l : List α}
    (hnd : (l.map f).Nodup) {t : α} (ht : t ∈ l) :
    l.find? (fun u => f u == f t) = some t := by
  induction l with
  | nil => cases ht
  | cons a l ih =>
    rw [List.map_cons, List.nodup_cons] at hnd
    rcases List.mem_cons.mp ht with rfl | htl
    · exact List.find?_cons_of_pos _ (by simp)
    · have hne : (f a == f t) = false := by
        simp only [beq_eq_false_iff_ne, ne_eq]
        intro he
        exact hnd.1 (he ▸ List.mem_map_of_mem f htl)
      rw [List.find?_cons_of_neg _ (by simp [hne]), ih hnd.2 htl]

/-- The rows passing a filter and the rows failing it partition the list. -/
theorem length_filter_not_add {α : Type} (p : α → Bool) (l : List α) :
    (l.filter (fun u => !(p u))).length + (l.filter p).length = l.length := by
  induction l with
  | nil => rfl
  | cons a l ih =>
    by_cases ha : p a = true
    · simp [List.filter_cons, ha]
      omega
    · rw [Bool.not_eq_true] at ha
      simp [List.filter_cons, ha]
      omega

/-- Removing the rows carrying the key of a member of a duplicate-free-keyed
list shortens it by exactly one. -/
theorem length_filter_key_ne {α : Type} {f : α → Int} {l : List α}
    (hnd : (l.map f).Nodup) {t : α} (ht : t ∈ l) :
    (l.filter (fun u => !(f u == f t))).length = l.length - 1 := by
  have h1 : (l.filter (fun u => f u == f t)).length = 1 := by
    rw [← List.countP_eq_length_filter]
    exact countP_key_eq_one hnd ht
  have h2 := length_filter_not_add (fun u => f u == f t) l
  omega

/-- Updating the rows with a given id commutes with searching for that id. -/
theorem find?_map_ite {l : List Task} {tid : Int} (g : Task → Task)
    (hg : ∀ t, (g t).id = t.id) :
    (l.map (fun t => if t.id == tid then g t else t)).find? (fun t => t.id == tid)
      = (l.find? (fun t => t.id == tid)).map g := by
  induction l with
  | nil => rfl
  | cons a l ih =>
    by_cases ha : (a.id == tid) = true
    · have hga : ((g a).id == tid) = true := by
        rw [hg]
        exact ha
      have e1 : (g a :: l.map (fun t => if t.id == tid then g t else t)).find?
          (fun t => t.id == tid) = some (g a) := List.find?_cons_of_pos _ hga
      have e2 : (a :: l).find? (fun t => t.id == tid) = some a :=
        List.find?_cons_of_pos _ ha
      rw [List.map_cons, if_pos ha, e1, e2, Option.map_some']
    · rw [Bool.not_eq_true] at ha
      have e1 : (a :: l.map (fun t => if t.id == tid then g t else t)).find?
          (fun t => t.id == tid)
          = (l.map (fun t => if t.id == tid then g t else t)).find?
          (fun t => t.id == tid) := List.find?_cons_of_neg _ (by simp [ha])
      have e2 : (a :: l).find? (fun t => t.id == tid)
          = l.find? (fun t => t.id == tid) := List.find?_cons_of_neg _ (by simp [ha])
      rw [List.map_cons, if_neg (by simp [ha]), e1, e2, ih]

/-- The filter that the three-way branch of `load_tasks` applies for a given
current topic. -/
def viewPred (tp : Topic) (t : Task) : Bool :=
  if tp.name == "Favourites" then t.favourite
  else if tp.name == "Default" then true
  else t.topic_id == tp.id

/-- `load_tasks` is the id-ordered listing of the rows passing the current
topic filter. -/
theorem load_tasks_eq_sort_filter (s : Store) (tp : Topic) :
    DbOperations.load_tasks s tp = sortTasks (s.tasks.filter (viewPred tp)) := by
  unfold DbOperations.load_tasks viewPred
  by_cases h1 : (tp.name == "Favourites") = true
  · simp [h1]
  · by_cases h2 : (tp.name == "Default") = true
    · simp [h1, h2, List.filter_true]
    · simp [h1, h2]

/-- `findIdxFrom` returns an index inside the list. -/
theorem findIdxFrom_lt_length {p : Topic → Bool} {l : List Topic} {i : Nat}
    (h : findIdxFrom p l = some i) : i < l.length := by
  induction l generalizing i with
  | nil => cases h
  | cons a l ih =>
    unfold findIdxFrom at h
    by_cases ha : p a = true
    · rw [if_pos ha] at h
      cases h
      simp
    · rw [if_neg ha] at h
      cases hrec : findIdxFrom p l with
      | none => rw [hrec] at h; cases h
      | some j =>
        rw [hrec] at h
        cases h
        have := ih hrec
        simp only [List.length_cons]
        omega

/-! ### Claim C1 -/

/-- Claim C1: for every topic passed to `load_tasks`, a topic named
"Favourites" yields exactly the tasks (from all topics) with `favourite =
true`; a topic named "Default" yields every task in the store; any other
topic yields exactly the tasks whose `topic_id` equals the topic's id; and in
every case the result is ordered by task id ascending. -/
theorem C1_load_tasks_filter_policy (s : Store) (tp : Topic) :
    (tp.name = "Favourites" →
      ∀ t : Task, t ∈ DbOperations.load_tasks s tp ↔ t ∈ s.tasks ∧ t.favourite = true) ∧
    (tp.name = "Default" →
      ∀ t : Task, t ∈ DbOperations.load_tasks s tp ↔ t ∈ s.tasks) ∧
    (tp.name ≠ "Favourites" → tp.name ≠ "Default" →
      ∀ t : Task, t ∈ DbOperations.load_tasks s tp ↔ t ∈ s.tasks ∧ t.topic_id = tp.id) ∧
    (DbOperations.load_tasks s tp).Pairwise (fun t u => t.id ≤ u.id) := by
  refine ⟨?_, ?_, ?_, ?_⟩
  · intro h t
    rw [load_tasks_eq_sort_filter, mem_sortTasks, List.mem_filter]
    unfold viewPred
    rw [h]
    simp
  · intro h t
    rw [load_tasks_eq_sort_filter, mem_sortTasks, List.mem_filter]
    unfold viewPred
    rw [h]
    simp
  · intro h1 h2 t
    rw [load_tasks_eq_sort_filter, mem_sortTasks, List.mem_filter]
    unfold viewPred
    simp [h1, h2]
  · rw [load_tasks_eq_sort_filter]
    exact sorted_sortTasks _

/-! ### Claim C2 -/

/-- Store with the three bootstrapped topics, used to refute claim C2 on the
`Completed` topic and to witness the amended claim. -/
def c2Store : Store :=
  { topics :=
      [{ id := 1, name := "Favourites", description := "", created_at := "T", updated_at := "T" },
       { id := 2, name := "Default", description := "", created_at := "T", updated_at := "T" },
       { id := 3, name := "Completed", description := "", created_at := "T", updated_at := "T" }],
    tasks := [], nextTopicId := 4, nextTaskId := 1 }

/-- The store of `c2Store` after the `Completed` topic row is deleted. -/
def c2StoreAfter : Store :=
  { topics :=
      [{ id := 1, name := "Favourites", description := "", created_at := "T", updated_at := "T" },
       { id := 2, name := "Default", description := "", created_at := "T", updated_at := "T" }],
    tasks := [], nextTopicId := 4, nextTaskId := 1 }

/-- Claim C2 is false as stated: `delete_topic` on the existing topic named
"Completed" (id 3) does not return 0 and leave the table unchanged; it
deletes the row and returns 1, because the `special_topics` set built in
`DbOperations::new` contains only "Favourites" and "Default". -/
theorem C2_counterexample_completed_deleted :
    DbOperations.delete_topic c2Store 3 = Except.ok (1, c2StoreAfter) ∧
    c2StoreAfter.topics ≠ c2Store.topics := by
  constructor
  · rfl
  · decide

/-- Claim C2 (amended): for every existing topic whose name is "Favourites" or
"Default", `delete_topic` returns 0 and performs no deletion; for every other
existing topic — including one named "Completed" — it deletes that row and
returns 1 (stated for stores whose topic ids are duplicate-free, as the
autoincrement primary key guarantees). -/
theorem C2_amended_delete_topic_guard (s : Store) (tp : Topic)
    (hnd : (s.topics.map (fun t => t.id)).Nodup) (htp : tp ∈ s.topics) :
    (tp.name = "Favourites" ∨ tp.name = "Default" →
      DbOperations.delete_topic s tp.id = Except.ok (0, s)) ∧
    (tp.name ≠ "Favourites" → tp.name ≠ "Default" →
      DbOperations.delete_topic s tp.id
        = Except.ok (1, { s with topics := s.topics.filter (fun u => !(u.id == tp.id)) })) := by
  have hfind : s.topics.find? (fun u => u.id == tp.id) = some tp :=
    find?_key_eq_some hnd htp
  constructor
  · intro h
    unfold DbOperations.delete_topic
    rw [hfind]
    have hsp : DbOperations.is_special_topic tp.name = true := by
      rcases h with h | h <;> simp [DbOperations.is_special_topic, h]
    simp [hsp]
  · intro h1 h2
    unfold DbOperations.delete_topic
    rw [hfind]
    have hsp : DbOperations.is_special_topic tp.name = false := by
      simp [DbOperations.is_special_topic, h1, h2]
    have hlen : (s.topics.filter (fun u => u.id == tp.id)).length = 1 := by
      rw [← List.countP_eq_length_filter]
      exact countP_key_eq_one hnd htp
    simp [hsp, hlen]

/-- Witness for the amended claim C2 at a concrete store: deleting the
Favourites topic is refused with count 0. -/
theorem C2_amended_guard_witness :
    DbOperations.delete_topic c2Store 1 = Except.ok (0, c2Store) :=
  (C2_amended_delete_topic_guard c2Store
      { id := 1, name := "Favourites", description := "", created_at := "T", updated_at := "T" }
      (by decide) (by decide)).1 (Or.inl rfl)

/-! ### Frame lemmas about the App operations -/

theorem load_tasks_store (a : App) : (App.load_tasks a).store = a.store := by
  unfold App.load_tasks
  split
  · rfl
  · split <;> rfl

theorem load_tasks_topics (a : App) : (App.load_tasks a).topics = a.topics := by
  unfold App.load_tasks
  split
  · rfl
  · split <;> rfl

theorem load_tasks_selected_topic (a : App) :
    (App.load_tasks a).selected_topic = a.selected_topic := by
  unfold App.load_tasks
  split
  · rfl
  · split <;> rfl

/-- After any `App::load_tasks`, a non-empty task cache has `selected` in
bounds: the reload clamps `selected` downward whenever it fell off the end of
a non-empty list. -/
theorem load_tasks_selected_lt (a : App) :
    (App.load_tasks a).tasks ≠ [] → (App.load_tasks a).selected < (App.load_tasks a).tasks.length := by
  unfold App.load_tasks
  split
  · intro h
    cases h rfl
  · split
    · intro h
      cases h rfl
    · rename_i tp hget
      intro h
      have hne : DbOperations.load_tasks a.store tp ≠ [] := h
      show (if (DbOperations.load_tasks a.store tp).length ≤ a.selected ∧
          DbOperations.load_tasks a.store tp ≠ [] then
        (DbOperations.load_tasks a.store tp).length - 1
      else a.selected) < (DbOperations.load_tasks a.store tp).length
      have hpos : 0 < (DbOperations.load_tasks a.store tp).length :=
        List.length_pos.mpr hne
      split
      · omega
      · rename_i hc
        rw [not_and_or] at hc
        rcases hc with hc | hc
        · omega
        · exact absurd hne hc

/-- In the main branch of `App::load_tasks` the cache is replaced by the view
of the current topic. -/
theorem load_tasks_tasks_eq (a : App) (tp : Topic)
    (hne : a.topics.isEmpty = false)
    (hget : a.topics.get? a.selected_topic = some tp) :
    (App.load_tasks a).tasks = DbOperations.load_tasks a.store tp := by
  unfold App.load_tasks
  split
  · rename_i hc
    rw [hne] at hc
    cases hc
  · split
    · rename_i hmatch
      rw [hget] at hmatch
      cases hmatch
    · rename_i tp2 hmatch
      rw [hget] at hmatch
      cases hmatch
      rfl

/-- In the main branch of `App::load_tasks` the new `selected` is the old one
clamped to the end of a non-empty view. -/
theorem load_tasks_selected_eq (a : App) (tp : Topic)
    (hne : a.topics.isEmpty = false)
    (hget : a.topics.get? a.selected_topic = some tp) :
    (App.load_tasks a).selected =
      (if (DbOperations.load_tasks a.store tp).length ≤ a.selected ∧
          DbOperations.load_tasks a.store tp ≠ [] then
        (DbOperations.load_tasks a.store tp).length - 1
      else a.selected) := by
  unfold App.load_tasks
  split
  · rename_i hc
    rw [hne] at hc
    cases hc
  · split
    · rename_i hmatch
      rw [hget] at hmatch
      cases hmatch
    · rename_i tp2 hmatch
      rw [hget] at hmatch
      cases hmatch
      rfl

/-! ### Claim C5 -/

/-- Claim C5: when the current topic is named "Favourites", both `add_task`
and `add_task_with_details` are silent no-ops: they return with the entire
application state (store included) unchanged, inserting no row and surfacing
no failure. -/
theorem C5_add_task_favourites_noop (a : App) (tp : Topic) (now n d : String)
    (hget : a.topics.get? a.selected_topic = some tp)
    (hname : tp.name = "Favourites") :
    App.add_task now d a = a ∧ App.add_task_with_details now n d a = a := by
  have hb : (tp.name == "Favourites") = true := by
    rw [hname]
    rfl
  constructor
  · unfold App.add_task
    rw [hget]
    simp [hb]
  · unfold App.add_task_with_details
    rw [hget]
    simp [hb]

/-- Witness for claim C5 at a concrete state: adding to the Favourites topic
of the bootstrapped store leaves the state untouched. -/
theorem C5_add_task_favourites_noop_witness :
    App.add_task "T" "x" (App.appNew emptyStore "T") = App.appNew emptyStore "T" :=
  (C5_add_task_favourites_noop (App.appNew emptyStore "T")
    { id := 1, name := "Favourites", description := "", created_at := "T", updated_at := "T" }
    "T" "n" "x" rfl rfl).1

/-! ### Claim C7 -/

/-- Claim C7: starting from an empty store, App construction creates the
topics "Favourites", "Default" and "Completed" in that check order (their ids
are assigned in that order), sets `selected_topic` to the index of the
Favourites topic, and ends with an empty task list. -/
theorem C7_startup_bootstrap (now : String) :
    (App.appNew emptyStore now).topics.map (fun t => t.name)
        = ["Favourites", "Default", "Completed"] ∧
    (App.appNew emptyStore now).topics.map (fun t => t.id) = [1, 2, 3] ∧
    (App.appNew emptyStore now).store.topics.map (fun t => t.name)
        = ["Favourites", "Default", "Completed"] ∧
    (App.appNew emptyStore now).selected_topic = 0 ∧
    ((App.appNew emptyStore now).topics.get? 0).map (fun t => t.name)
        = some "Favourites" ∧
    (App.appNew emptyStore now).tasks = [] :=
  ⟨rfl, rfl, rfl, rfl, rfl, rfl⟩

/-! ### Claim C9 -/

/-- Every character occupies at least one UTF-8 byte, so a string of UTF-8
byte length at most 20 has at most 20 characters. -/
theorem length_le_utf8Len (s : String) : s.toList.length ≤ utf8Len s := by
  unfold utf8Len
  induction s.toList with
  | nil => simp
  | cons c l ih =>
    have := Char.utf8Size_pos c
    simp only [List.map_cons, List.sum_cons, List.length_cons]
    omega

/-- `String.mk` is a left inverse of `String.toList`. -/
theorem string_mk_toList (s : String) : String.mk s.toList = s := rfl

/-- `String.mk` rebuilds a string from its character data. -/
theorem string_mk_data (s : String) : String.mk s.data = s := rfl

/-- Claim C9: when the current topic is not Favourites, `add_task d` inserts
exactly one task whose description is `d` and whose display name is the fixed
label `"Task "` followed by the first 20 characters of `d` (all of `d` when it
is 20 characters or shorter), with `completed = false` and
`favourite = false`. -/
theorem C9_add_task_synthesized_name (a : App) (tp : Topic) (now d : String)
    (hget : a.topics.get? a.selected_topic = some tp)
    (hname : tp.name ≠ "Favourites") :
    (App.add_task now d a).store.tasks
      = a.store.tasks ++
        [{ id := a.store.nextTaskId, topic_id := tp.id,
           name := "Task " ++ String.mk (d.toList.take 20),
           description := d, completed := false, favourite := false,
           created_at := now, updated_at := now }] := by
  have hb : (tp.name == "Favourites") = false := by
    simp [hname]
  unfold App.add_task
  rw [hget]
  simp only [hb, Bool.false_eq_true, if_false, load_tasks_store]
  by_cases hlen : utf8Len d > 20
  · simp [hlen, DbOperations.add_task, App.add_log]
  · have h20 : d.toList.length ≤ 20 := le_trans (length_le_utf8Len d) (by omega)
    have htake : List.take 20 d.data = d.data := List.take_of_length_le h20
    simp [hlen, DbOperations.add_task, App.add_log, htake, string_mk_data]

/-- Witness for claim C9: adding a task with a 25-character description to the
Default topic of the bootstrapped store appends exactly the synthesized row. -/
theorem C9_add_task_synthesized_name_witness :
    (App.add_task "T" "abcdefghijklmnopqrstuvwxy"
        { App.appNew emptyStore "T" with selected_topic := 1 }).store.tasks
      = [{ id := 1, topic_id := 2,
           name := "Task " ++ String.mk ("abcdefghijklmnopqrstuvwxy".toList.take 20),
           description := "abcdefghijklmnopqrstuvwxy", completed := false, favourite := false,
           created_at := "T", updated_at := "T" }] :=
  C9_add_task_synthesized_name
    { App.appNew emptyStore "T" with selected_topic := 1 }
    { id := 2, name := "Default", description := "", created_at := "T", updated_at := "T" }
    "T" "abcdefghijklmnopqrstuvwxy" rfl (by decide)

/-! ### Claim C6 -/

/-- A task with its `updated_at` stamp erased, used to compare all other
fields. -/
def eraseUpdatedAt (t : Task) : Task := { t with updated_at := "" }

/-- Closed form of one `toggle_task_completion` call on a store containing the
target id: the returned record is the stored one with `completed` flipped and
`updated_at` restamped, and the store rows with that id are updated the same
way. -/
theorem toggle_task_completion_spec (s : Store) (now : String) (tid : Int) (t0 : Task)
    (hfind : s.tasks.find? (fun t => t.id == tid) = some t0) :
    DbOperations.toggle_task_completion s now tid
      = Except.ok
          (DbOperations.applyUpdate
            { name := none, description := none, completed := some (!t0.completed),
              favourite := none, updated_at := now } t0,
           { s with tasks := s.tasks.map (fun t =>
              if t.id == tid then
                DbOperations.applyUpdate
                  { name := none, description := none, completed := some (!t0.completed),
                    favourite := none, updated_at := now } t
              else t) }) := by
  unfold DbOperations.toggle_task_completion
  rw [hfind]
  have hf1 : (s.tasks.map (fun t =>
      if t.id == tid then
        DbOperations.applyUpdate
          { name := none, description := none, completed := some (!t0.completed),
            favourite := none, updated_at := now } t
      else t)).find? (fun t => t.id == tid)
      = some (DbOperations.applyUpdate
          { name := none, description := none, completed := some (!t0.completed),
            favourite := none, updated_at := now } t0) := by
    rw [find?_map_ite
        (DbOperations.applyUpdate
          { name := none, description := none, completed := some (!t0.completed),
            favourite := none, updated_at := now })
        (fun t => rfl), hfind, Option.map_some']
  dsimp only
  rw [hf1]

/-- Claim C6: toggling completion twice returns the task to its original
`completed` value with every other field except `updated_at` unchanged (also
across the whole store), and each single application flips only the
`completed` boolean. Stated for stores whose task ids are duplicate-free, as
the autoincrement primary key guarantees. -/
theorem C6_toggle_completion_involutive (s : Store) (now1 now2 : String)
    (task_id : Int) (t0 : Task)
    (hnd : (s.tasks.map (fun t => t.id)).Nodup)
    (hfind : s.tasks.find? (fun t => t.id == task_id) = some t0) :
    ∃ t1 s1 t2 s2,
      DbOperations.toggle_task_completion s now1 task_id = Except.ok (t1, s1) ∧
      DbOperations.toggle_task_completion s1 now2 task_id = Except.ok (t2, s2) ∧
      t1.completed = !t0.completed ∧
      eraseUpdatedAt t1 = eraseUpdatedAt { t0 with completed := !t0.completed } ∧
      t2.completed = t0.completed ∧
      eraseUpdatedAt t2 = eraseUpdatedAt t0 ∧
      s2.tasks.map eraseUpdatedAt = s.tasks.map eraseUpdatedAt ∧
      s2.topics = s.topics := by
  have hmem : t0 ∈ s.tasks := List.mem_of_find?_eq_some hfind
  have hid : t0.id = task_id := by
    have := List.find?_some hfind
    simpa using this
  have hspec1 := toggle_task_completion_spec s now1 task_id t0 hfind
  have hfind1 : ({ s with tasks := s.tasks.map (fun t =>
      if t.id == task_id then
        DbOperations.applyUpdate
          { name := none, description := none, completed := some (!t0.completed),
            favourite := none, updated_at := now1 } t
      else t) } : Store).tasks.find? (fun t => t.id == task_id)
      = some (DbOperations.applyUpdate
          { name := none, description := none, completed := some (!t0.completed),
            favourite := none, updated_at := now1 } t0) := by
    show (s.tasks.map _).find? _ = _
    rw [find?_map_ite
        (DbOperations.applyUpdate
          { name := none, description := none, completed := some (!t0.completed),
            favourite := none, updated_at := now1 })
        (fun t => rfl), hfind, Option.map_some']
  have hspec2 := toggle_task_completion_spec _ now2 task_id _ hfind1
  refine ⟨_, _, _, _, hspec1, hspec2, rfl, ?_, ?_, ?_, ?_, rfl⟩
  · obtain ⟨i, ti, nm, ds, cp, fv, ca, ua⟩ := t0
    simp [DbOperations.applyUpdate, eraseUpdatedAt]
  · obtain ⟨i, ti, nm, ds, cp, fv, ca, ua⟩ := t0
    simp [DbOperations.applyUpdate, Bool.not_not]
  · obtain ⟨i, ti, nm, ds, cp, fv, ca, ua⟩ := t0
    simp [DbOperations.applyUpdate, eraseUpdatedAt, Bool.not_not]
  · show ((s.tasks.map _).map _).map eraseUpdatedAt = _
    rw [List.map_map, List.map_map]
    apply List.map_congr_left
    intro t ht
    simp only [Function.comp_apply]
    by_cases hteq : t.id = task_id
    · have hteq2 : t = t0 := key_inj hnd ht hmem (by rw [hteq, hid])
      subst hteq2
      obtain ⟨i, ti, nm, ds, cp, fv, ca, ua⟩ := t
      simp only [] at hteq
      simp [DbOperations.applyUpdate, eraseUpdatedAt, hteq, Bool.not_not]
    · simp [DbOperations.applyUpdate, eraseUpdatedAt, hteq]

/-- Store with one incomplete task, used to witness claim C6. -/
def c6Store : Store :=
  { topics :=
      [{ id := 1, name := "Favourites", description := "", created_at := "T", updated_at := "T" },
       { id := 2, name := "Default", description := "", created_at := "T", updated_at := "T" }],
    tasks :=
      [{ id := 1, topic_id := 2, name := "Task x", description := "x",
         completed := false, favourite := false, created_at := "T", updated_at := "T" }],
    nextTopicId := 3, nextTaskId := 2 }

/-- Witness for claim C6 at the concrete store `c6Store`. -/
theorem C6_toggle_completion_involutive_witness :
    ∃ t1 s1 t2 s2,
      DbOperations.toggle_task_completion c6Store "T1" 1 = Except.ok (t1, s1) ∧
      DbOperations.toggle_task_completion s1 "T2" 1 = Except.ok (t2, s2) ∧
      t1.completed = !(false : Bool) ∧
      eraseUpdatedAt t1 = eraseUpdatedAt
        { id := 1, topic_id := 2, name := "Task x", description := "x",
          completed := true, favourite := false, created_at := "T", updated_at := "T" } ∧
      t2.completed = false ∧
      eraseUpdatedAt t2 = eraseUpdatedAt
        { id := 1, topic_id := 2, name := "Task x", description := "x",
          completed := false, favourite := false, created_at := "T", updated_at := "T" } ∧
      s2.tasks.map eraseUpdatedAt = c6Store.tasks.map eraseUpdatedAt ∧
      s2.topics = c6Store.topics := by
  have h := C6_toggle_completion_involutive c6Store "T1" "T2" 1
    { id := 1, topic_id := 2, name := "Task x", description := "x",
      completed := false, favourite := false, created_at := "T", updated_at := "T" }
    (by decide) (by decide)
  simpa using h

/-! ### Claim C10 -/

/-- Closed form of `App::delete_topic` when the current topic is not named
Favourites and the repository call succeeds: reload topics from the resulting
store, reset `selected_topic` to 0 and reload tasks. -/
theorem delete_topic_ok_spec (a : App) (tp : Topic) (n : Nat) (s2 : Store)
    (hget : a.topics.get? a.selected_topic = some tp)
    (hnfav : (tp.name == "Favourites") = false)
    (hdb : DbOperations.delete_topic a.store tp.id = Except.ok (n, s2)) :
    a.delete_topic
      = (App.load_tasks
          { ({ a with store := s2 }).load_topics with selected_topic := 0 }, none) := by
  unfold App.delete_topic
  rw [hget]
  simp only [hnfav, Bool.false_eq_true, if_false, hdb]

/-- Claim C10: when the current topic is named "Default", `App::delete_topic`
leaves the whole store unchanged (the repository refuses the deletion), yet
still resets `selected_topic` to 0 and reloads the task list for the topic at
index 0. -/
theorem C10_delete_topic_default_resets_selection (a : App) (tp : Topic)
    (hsel : a.selected_topic < a.topics.length)
    (hget : a.topics.get? a.selected_topic = some tp)
    (hname : tp.name = "Default")
    (hfind : a.store.topics.find? (fun u => u.id == tp.id) = some tp)
    (hsync : a.topics = DbOperations.load_topics a.store) :
    a.delete_topic.2 = none ∧
    a.delete_topic.1.store = a.store ∧
    a.delete_topic.1.topics = a.topics ∧
    a.delete_topic.1.selected_topic = 0 ∧
    a.delete_topic.1.tasks
      = DbOperations.load_tasks a.store
          (a.topics.get ⟨0, Nat.lt_of_le_of_lt (Nat.zero_le _) hsel⟩) := by
  have hnfav : (tp.name == "Favourites") = false := by
    simp [hname]
  have hdb : DbOperations.delete_topic a.store tp.id = Except.ok (0, a.store) := by
    unfold DbOperations.delete_topic
    rw [hfind]
    simp [DbOperations.is_special_topic, hname]
  have hspec := delete_topic_ok_spec a tp 0 a.store hget hnfav hdb
  rw [hspec]
  set b : App := { ({ a with store := a.store }).load_topics with selected_topic := 0 } with hb
  have hbtopics : b.topics = a.topics := by
    rw [hb]
    show DbOperations.load_topics a.store = a.topics
    exact hsync.symm
  have hbstore : b.store = a.store := rfl
  have hbsel : b.selected_topic = 0 := rfl
  have htp0 : a.topics.get? 0
      = some (a.topics.get ⟨0, Nat.lt_of_le_of_lt (Nat.zero_le _) hsel⟩) :=
    List.get?_eq_get _
  have hbne : b.topics.isEmpty = false := by
    rw [hbtopics]
    cases hl : a.topics with
    | nil =>
      rw [hl] at hsel
      cases (Nat.not_lt_zero _) hsel
    | cons x xs => rfl
  have hbget : b.topics.get? b.selected_topic
      = some (a.topics.get ⟨0, Nat.lt_of_le_of_lt (Nat.zero_le _) hsel⟩) := by
    rw [hbsel, hbtopics, htp0]
  refine ⟨rfl, ?_, ?_, ?_, ?_⟩
  · rw [load_tasks_store]
    exact hbstore
  · rw [load_tasks_topics, hbtopics]
  · rw [load_tasks_selected_topic]
  · rw [load_tasks_tasks_eq b _ hbne hbget, hbstore]

/-- The bootstrapped application with the Default topic (index 1) selected,
used to witness claim C10. -/
def c10App : App := { App.appNew emptyStore "T" with selected_topic := 1 }

/-- The selection index of `c10App` is in bounds. -/
theorem c10App_sel_lt : c10App.selected_topic < c10App.topics.length := by decide

/-- Witness for claim C10: in the bootstrapped store with the Default topic
selected, `delete_topic` keeps the store intact but moves the selection to
index 0. -/
theorem C10_delete_topic_default_witness :
    c10App.delete_topic.2 = none ∧
    c10App.delete_topic.1.store = c10App.store ∧
    c10App.delete_topic.1.topics = c10App.topics ∧
    c10App.delete_topic.1.selected_topic = 0 ∧
    c10App.delete_topic.1.tasks
      = DbOperations.load_tasks c10App.store
          (c10App.topics.get ⟨0, Nat.lt_of_le_of_lt (Nat.zero_le _) c10App_sel_lt⟩) :=
  C10_delete_topic_default_resets_selection c10App
    { id := 2, name := "Default", description := "", created_at := "T", updated_at := "T" }
    c10App_sel_lt rfl rfl rfl rfl

/-! ### Claim C4 -/

/-- Claim C4: `delete_task` deletes the task at index `selected`; afterwards
the task list is one shorter, and `selected` equals `max(0, old_length - 2)`
when the last element was selected (here `old_length - 2` in truncated natural
subtraction), while a selection strictly before the last element is left
unchanged — it never jumps to 0 unless it already was 0. Stated for a state
whose task cache agrees with the store view of its current topic and whose
store task ids are duplicate-free. -/
theorem C4_delete_task_selection (a : App) (tp : Topic) (now : String)
    (hget : a.topics.get? a.selected_topic = some tp)
    (hsync : a.tasks = DbOperations.load_tasks a.store tp)
    (hnd : (a.store.tasks.map (fun t => t.id)).Nodup)
    (hne : a.tasks ≠ [])
    (hsel : a.selected < a.tasks.length) :
    (App.delete_task now a).tasks.length = a.tasks.length - 1 ∧
    (App.delete_task now a).selected
      = (if a.selected = a.tasks.length - 1 then a.tasks.length - 2 else a.selected) := by
  have hgets : a.tasks.get? a.selected = some (a.tasks.get ⟨a.selected, hsel⟩) :=
    List.get?_eq_get hsel
  set tsel := a.tasks.get ⟨a.selected, hsel⟩ with htsel
  set b : App := App.add_log
    { a with store := (DbOperations.delete_task a.store tsel.id).2 }
    now "INFO" ("Deleted task id: " ++ toString tsel.id) with hbdef
  have hstep : App.delete_task now a
      = (if 0 < (App.load_tasks b).selected ∧
            (App.load_tasks b).tasks.length ≤ (App.load_tasks b).selected then
          { (App.load_tasks b) with selected := (App.load_tasks b).selected - 1 }
        else (App.load_tasks b)) := by
    unfold App.delete_task
    rw [hgets]
  have hbtopics : b.topics = a.topics := rfl
  have hbsel : b.selected = a.selected := rfl
  have hbstore : b.store.tasks = a.store.tasks.filter (fun u => !(u.id == tsel.id)) := rfl
  have hbne : b.topics.isEmpty = false := by
    rw [hbtopics]
    cases hl : a.topics with
    | nil =>
      rw [hl] at hget
      simp at hget
    | cons x xs => rfl
  have hbget : b.topics.get? b.selected_topic = some tp := hget
  have ha3tasks : (App.load_tasks b).tasks = DbOperations.load_tasks b.store tp :=
    load_tasks_tasks_eq b tp hbne hbget
  have ha3sel := load_tasks_selected_eq b tp hbne hbget
  have hLP : (a.store.tasks.filter (viewPred tp)).length = a.tasks.length := by
    rw [hsync, load_tasks_eq_sort_filter, length_sortTasks]
  have htselmem : tsel ∈ a.store.tasks.filter (viewPred tp) := by
    have h1 : tsel ∈ a.tasks := List.get?_mem hgets
    rw [hsync, load_tasks_eq_sort_filter] at h1
    exact mem_sortTasks.mp h1
  have hndp : ((a.store.tasks.filter (viewPred tp)).map (fun t => t.id)).Nodup := by
    apply List.Nodup.sublist _ hnd
    exact List.Sublist.map _ (List.filter_sublist _)
  have hfcomm : b.store.tasks.filter (viewPred tp)
      = (a.store.tasks.filter (viewPred tp)).filter (fun u => !(u.id == tsel.id)) := by
    rw [hbstore, List.filter_filter, List.filter_filter]
    congr 1
    funext u
    rw [Bool.and_comm]
  have hnewlen : (DbOperations.load_tasks b.store tp).length = a.tasks.length - 1 := by
    rw [load_tasks_eq_sort_filter, length_sortTasks, hfcomm,
      length_filter_key_ne hndp htselmem, hLP]
  have hn : 0 < a.tasks.length := List.length_pos.mpr hne
  have hnilIff : DbOperations.load_tasks b.store tp ≠ [] ↔ 0 < a.tasks.length - 1 := by
    rw [← hnewlen]
    exact List.length_pos.symm
  have hlen3 : (App.load_tasks b).tasks.length = a.tasks.length - 1 := by
    rw [ha3tasks, hnewlen]
  rw [hnewlen] at ha3sel
  simp only [hnilIff, hbsel] at ha3sel
  have hfinneg : ¬(0 < (App.load_tasks b).selected ∧
      (App.load_tasks b).tasks.length ≤ (App.load_tasks b).selected) := by
    rintro ⟨hpos, hle⟩
    rw [hlen3] at hle
    rw [ha3sel] at hpos hle
    by_cases hc : a.tasks.length - 1 ≤ a.selected ∧ 0 < a.tasks.length - 1
    · rw [if_pos hc] at hpos hle
      omega
    · rw [if_neg hc] at hpos hle
      rw [not_and_or] at hc
      rcases hc with hc | hc <;> omega
  constructor
  · rw [hstep, if_neg hfinneg, hlen3]
  · rw [hstep, if_neg hfinneg, ha3sel]
    by_cases hc : a.tasks.length - 1 ≤ a.selected ∧ 0 < a.tasks.length - 1
    · rw [if_pos hc]
      by_cases hs : a.selected = a.tasks.length - 1
      · rw [if_pos hs]
        omega
      · rw [if_neg hs]
        omega
    · rw [if_neg hc]
      rw [not_and_or] at hc
      by_cases hs : a.selected = a.tasks.length - 1
      · rw [if_pos hs]
        rcases hc with hc | hc <;> omega
      · rw [if_neg hs]

/-- Store with a user topic owning two tasks, used to witness claim C4. -/
def c4Store : Store :=
  { topics :=
      [{ id := 1, name := "Favourites", description := "", created_at := "T", updated_at := "T" },
       { id := 2, name := "Default", description := "", created_at := "T", updated_at := "T" },
       { id := 3, name := "Work", description := "", created_at := "T", updated_at := "T" }],
    tasks :=
      [{ id := 1, topic_id := 3, name := "Task a", description := "a",
         completed := false, favourite := false, created_at := "T", updated_at := "T" },
       { id := 2, topic_id := 3, name := "Task b", description := "b",
         completed := false, favourite := false, created_at := "T", updated_at := "T" }],
    nextTopicId := 4, nextTaskId := 3 }

/-- Application state viewing the Work topic of `c4Store` with its last task
selected, used to witness claim C4. -/
def c4App : App :=
  { store := c4Store, topics := c4Store.topics, selected_topic := 2,
    tasks := DbOperations.load_tasks c4Store
      { id := 3, name := "Work", description := "", created_at := "T", updated_at := "T" },
    selected := 1, input_mode := .Normal, input := "", task_name_input := "",
    task_description_input := "", logs := [], log_offset := 0, expanded := [],
    show_help := false }

/-- Witness for claim C4: deleting the selected last of two tasks leaves one
task with `selected = 0`. -/
theorem C4_delete_task_selection_witness :
    (App.delete_task "T" c4App).tasks.length = c4App.tasks.length - 1 ∧
    (App.delete_task "T" c4App).selected
      = (if c4App.selected = c4App.tasks.length - 1 then c4App.tasks.length - 2
        else c4App.selected) :=
  C4_delete_task_selection c4App
    { id := 3, name := "Work", description := "", created_at := "T", updated_at := "T" }
    "T" rfl rfl (by decide) (by decide) (by decide)

/-! ### Claim C8 -/

/-- A state in the middle of the two-step task creation flow, with partial
content in both task buffers, used to refute claim C8 as stated. -/
def c8App : App :=
  { store := emptyStore, topics := [], selected_topic := 0, tasks := [], selected := 0,
    input_mode := .AddingTaskName, input := "", task_name_input := "ab",
    task_description_input := "xy", logs := [], log_offset := 0, expanded := [],
    show_help := false }

/-- Claim C8 is false as stated: Esc from `AddingTaskName` does return to
Normal, but the partially-typed buffer content is retained — the task name
and description buffers still hold their partial content afterwards (they are
only cleared by `reset_task_inputs` on a successful commit). -/
theorem C8_counterexample_buffers_retained :
    (step "T" c8App .esc).input_mode = .Normal ∧
    (step "T" c8App .esc).task_name_input = "ab" ∧
    (step "T" c8App .esc).task_description_input = "xy" ∧
    ("ab" : String) ≠ "" := by
  refine ⟨rfl, rfl, rfl, ?_⟩
  decide

/-- Claim C8 (amended): a cancellation (Esc) event from any non-Normal mode
that the event loop handles (every mode except the unused `DeleteTask`, which
has no arm) returns the mode to Normal without committing: no repository
mutation occurs and the caches are untouched; however the text-input buffers
are left unchanged, so partial content is retained in them rather than
discarded (the shared `input` buffer is only cleared on the next mode entry,
and the task name/description buffers only on a successful commit). -/
theorem C8_amended_esc_returns_to_normal (now : String) (a : App)
    (h1 : a.input_mode ≠ .Normal) (h2 : a.input_mode ≠ .DeleteTask) :
    (step now a .esc).input_mode = .Normal ∧
    (step now a .esc).store = a.store ∧
    (step now a .esc).topics = a.topics ∧
    (step now a .esc).tasks = a.tasks ∧
    (step now a .esc).logs = a.logs ∧
    (step now a .esc).input = a.input ∧
    (step now a .esc).task_name_input = a.task_name_input ∧
    (step now a .esc).task_description_input = a.task_description_input := by
  unfold step
  cases hm : a.input_mode <;>
    simp_all [stepAddingTask, stepAddingTaskName, stepAddingTaskDescription,
      stepEditingTask, stepAddingTopic, stepHelp]

/-- Witness for the amended claim C8 at the concrete state `c8App`. -/
theorem C8_amended_esc_witness :
    (step "T" c8App .esc).input_mode = .Normal ∧
    (step "T" c8App .esc).store = c8App.store ∧
    (step "T" c8App .esc).topics = c8App.topics ∧
    (step "T" c8App .esc).tasks = c8App.tasks ∧
    (step "T" c8App .esc).logs = c8App.logs ∧
    (step "T" c8App .esc).input = c8App.input ∧
    (step "T" c8App .esc).task_name_input = c8App.task_name_input ∧
    (step "T" c8App .esc).task_description_input = c8App.task_description_input :=
  C8_amended_esc_returns_to_normal "T" c8App (by decide) (by decide)

/-! ### Claim C3: the reachable-state invariant

The invariant below strengthens the claimed index bounds with the facts that
make them inductive: the topic cache always equals a fresh read of the store,
a Favourites row is always present (so the topic list is never empty after
startup), and the topic ids are duplicate-free and below the autoincrement
counter. -/

/-- Well-formedness of the topic table: duplicate-free ids, all below the
autoincrement counter. -/
def StoreTopicsWF (s : Store) : Prop :=
  (s.topics.map (fun t => t.id)).Nodup ∧ ∀ t ∈ s.topics, t.id < s.nextTopicId

/-- The inductive invariant of reachable application states. -/
structure Inv (a : App) : Prop where
  sync : a.topics = DbOperations.load_topics a.store
  fav : ∃ t ∈ a.store.topics, t.name = "Favourites"
  wf : StoreTopicsWF a.store
  selTopic : a.selected_topic < a.topics.length
  selTask : a.tasks ≠ [] → a.selected < a.tasks.length

theorem load_topics_congr {s s2 : Store} (h : s2.topics = s.topics) :
    DbOperations.load_topics s2 = DbOperations.load_topics s := by
  unfold DbOperations.load_topics
  rw [h]

theorem load_topics_length (s : Store) :
    (DbOperations.load_topics s).length = s.topics.length :=
  length_sortTopics _

/-- The invariant only reads the caches, the selection indices, the topic
table and the topic id counter, so it transports along states agreeing on
those. -/
theorem inv_of_eq {a : App} (h : Inv a) (a2 : App)
    (htopics : a2.topics = a.topics) (hselt : a2.selected_topic = a.selected_topic)
    (htasks : a2.tasks = a.tasks) (hsel : a2.selected = a.selected)
    (hst : a2.store.topics = a.store.topics)
    (hsn : a2.store.nextTopicId = a.store.nextTopicId) : Inv a2 := by
  refine ⟨?_, ?_, ⟨?_, ?_⟩, ?_, ?_⟩
  · rw [htopics, load_topics_congr hst]
    exact h.sync
  · rw [hst]
    exact h.fav
  · rw [hst]
    exact h.wf.1
  · rw [hst, hsn]
    exact h.wf.2
  · rw [htopics, hselt]
    exact h.selTopic
  · rw [htasks, hsel]
    exact h.selTask

theorem inv_add_log {a : App} (h : Inv a) (now lvl msg : String) :
    Inv (App.add_log a now lvl msg) :=
  inv_of_eq h _ rfl rfl rfl rfl rfl rfl

/-- `App::load_tasks` restores the whole invariant from its store-and-topic
part: the reload clamps the task selection itself. -/
theorem inv_load_tasks {a : App}
    (h1 : a.topics = DbOperations.load_topics a.store)
    (h2 : ∃ t ∈ a.store.topics, t.name = "Favourites")
    (h3 : StoreTopicsWF a.store)
    (h4 : a.selected_topic < a.topics.length) :
    Inv (App.load_tasks a) := by
  refine ⟨?_, ?_, ?_, ?_, load_tasks_selected_lt a⟩
  · rw [load_tasks_topics, load_tasks_store]
    exact h1
  · rw [load_tasks_store]
    exact h2
  · rw [load_tasks_store]
    exact h3
  · rw [load_tasks_topics, load_tasks_selected_topic]
    exact h4

/-- Inserting a topic preserves the table well-formedness, keeps every old
row, and adds the new named row. -/
theorem storeWF_add_topic (s : Store) (now name desc : String)
    (h : StoreTopicsWF s) :
    StoreTopicsWF (DbOperations.add_topic s now name desc).2 ∧
    (∀ t ∈ s.topics, t ∈ (DbOperations.add_topic s now name desc).2.topics) ∧
    (∃ t ∈ (DbOperations.add_topic s now name desc).2.topics, t.name = name) := by
  obtain ⟨hnd, hfresh⟩ := h
  have htopics2 : (DbOperations.add_topic s now name desc).2.topics
      = s.topics ++
        ({ id := s.nextTopicId, name := name, description := desc,
           created_at := now, updated_at := now } : Topic) :: [] := rfl
  have hnext2 : (DbOperations.add_topic s now name desc).2.nextTopicId
      = s.nextTopicId + 1 := rfl
  refine ⟨⟨?_, ?_⟩, ?_, ?_⟩
  · rw [htopics2, List.map_append, List.nodup_append]
    refine ⟨hnd, List.nodup_singleton _, ?_⟩
    intro x hx hy
    simp only [List.map_cons, List.map_nil, List.mem_singleton] at hy
    obtain ⟨t, ht, rfl⟩ := List.mem_map.mp hx
    have := hfresh t ht
    rw [hy] at this
    omega
  · intro t ht
    rw [htopics2] at ht
    rw [hnext2]
    rcases List.mem_append.mp ht with ht | ht
    · have := hfresh t ht
      omega
    · simp only [List.mem_singleton] at ht
      subst ht
      show s.nextTopicId < s.nextTopicId + 1
      omega
  · intro t ht
    rw [htopics2]
    exact List.mem_append_left _ ht
  · rw [htopics2]
    exact ⟨_, List.mem_append_right _ (List.mem_singleton.mpr rfl), rfl⟩

/-- A successful `delete_topic` preserves the table well-formedness and keeps
every Favourites-named row. -/
theorem storeWF_delete_topic {s : Store} {tid : Int} {r : Nat × Store}
    (h : StoreTopicsWF s)
    (hdb : DbOperations.delete_topic s tid = Except.ok r) :
    StoreTopicsWF r.2 ∧
    (∀ t ∈ s.topics, t.name = "Favourites" → t ∈ r.2.topics) := by
  obtain ⟨hnd, hfresh⟩ := h
  obtain ⟨n, s2⟩ := r
  dsimp only
  unfold DbOperations.delete_topic at hdb
  cases hfind : s.topics.find? (fun t => t.id == tid) with
  | none =>
    rw [hfind] at hdb
    cases hdb
  | some tp0 =>
    rw [hfind] at hdb
    dsimp only at hdb
    by_cases hsp : DbOperations.is_special_topic tp0.name = true
    · rw [if_pos hsp] at hdb
      injection hdb with hpair
      injection hpair with h1 h2
      subst h2
      exact ⟨⟨hnd, hfresh⟩, fun t ht _ => ht⟩
    · rw [Bool.not_eq_true] at hsp
      rw [hsp] at hdb
      simp only [Bool.false_eq_true, if_false] at hdb
      injection hdb with hpair
      injection hpair with h1 h2
      subst h2
      have hsub : List.Sublist (s.topics.filter (fun t => !(t.id == tid))) s.topics :=
        List.filter_sublist _
      refine ⟨⟨?_, ?_⟩, ?_⟩
      · exact List.Nodup.sublist (List.Sublist.map _ hsub) hnd
      · intro t ht
        exact hfresh t (hsub.mem ht)
      · intro t ht hname
        show t ∈ s.topics.filter (fun t => !(t.id == tid))
        rw [List.mem_filter]
        refine ⟨ht, ?_⟩
        have htp0mem : tp0 ∈ s.topics := List.mem_of_find?_eq_some hfind
        have htp0id : tp0.id = tid := by
          have := List.find?_some hfind
          simpa using this
        have htp0name : ¬(tp0.name = "Favourites") := by
          intro hc
          rw [DbOperations.is_special_topic, hc] at hsp
          cases hsp
        simp only [Bool.not_eq_true']
        rw [beq_eq_false_iff_ne]
        intro hc
        have : t = tp0 := key_inj hnd ht htp0mem (by rw [hc, htp0id])
        subst this
        exact htp0name hname

/-- A successful `toggle_task_completion` only rewrites task rows: the topic
table and its id counter are untouched. -/
theorem toggle_completion_ok_shape {s : Store} {now : String} {tid : Int}
    {r : Task × Store}
    (hdb : DbOperations.toggle_task_completion s now tid = Except.ok r) :
    r.2.topics = s.topics ∧ r.2.nextTopicId = s.nextTopicId := by
  unfold DbOperations.toggle_task_completion at hdb
  split at hdb
  · cases hdb
  · dsimp only at hdb
    split at hdb
    · cases hdb
    · injection hdb with hpair
      rw [← hpair]
      exact ⟨rfl, rfl⟩

/-- A successful `toggle_task_favourite` only rewrites task rows. -/
theorem toggle_favourite_ok_shape {s : Store} {now : String} {tid : Int}
    {r : Task × Store}
    (hdb : DbOperations.toggle_task_favourite s now tid = Except.ok r) :
    r.2.topics = s.topics ∧ r.2.nextTopicId = s.nextTopicId := by
  unfold DbOperations.toggle_task_favourite at hdb
  split at hdb
  · cases hdb
  · dsimp only at hdb
    split at hdb
    · cases hdb
    · injection hdb with hpair
      rw [← hpair]
      exact ⟨rfl, rfl⟩

/-- A successful `update_task` only rewrites task rows. -/
theorem update_task_ok_shape {s : Store} {tid : Int} {u : TaskUpdate}
    {r : Task × Store}
    (hdb : DbOperations.update_task s tid u = Except.ok r) :
    r.2.topics = s.topics ∧ r.2.nextTopicId = s.nextTopicId := by
  unfold DbOperations.update_task at hdb
  dsimp only at hdb
  split at hdb
  · cases hdb
  · injection hdb with hpair
    rw [← hpair]
    exact ⟨rfl, rfl⟩

theorem inv_delete_task (now : String) {a : App} (h : Inv a) :
    Inv (App.delete_task now a) := by
  unfold App.delete_task
  split
  · exact h
  · rename_i task hget
    dsimp only
    have h2 : Inv (App.add_log
        { a with store := (DbOperations.delete_task a.store task.id).2 }
        now "INFO" ("Deleted task id: " ++ toString task.id)) :=
      inv_add_log
        (inv_of_eq h ({ a with store := (DbOperations.delete_task a.store task.id).2 })
          rfl rfl rfl rfl rfl rfl) _ _ _
    have h3 := inv_load_tasks h2.sync h2.fav h2.wf h2.selTopic
    split
    · rename_i hfin
      exact ⟨h3.sync, h3.fav, h3.wf, h3.selTopic, fun hne =>
        absurd (h3.selTask hne) (Nat.not_lt.mpr hfin.2)⟩
    · exact h3

theorem inv_toggle_task (now : String) {a : App} (h : Inv a) :
    Inv (App.toggle_task now a).1 := by
  unfold App.toggle_task
  split
  · exact h
  · rename_i task hget
    dsimp only
    split
    · exact h
    · rename_i r hdb
      obtain ⟨ht, hn⟩ := toggle_completion_ok_shape hdb
      have hb := inv_add_log (inv_of_eq h ({ a with store := r.2 }) rfl rfl rfl rfl ht hn)
        now "INFO" ("Toggled task id: " ++ toString task.id)
      exact inv_load_tasks hb.sync hb.fav hb.wf hb.selTopic

theorem inv_toggle_favourite (now : String) {a : App} (h : Inv a) :
    Inv (App.toggle_favourite now a).1 := by
  unfold App.toggle_favourite
  split
  · exact h
  · rename_i task hget
    dsimp only
    split
    · exact h
    · rename_i r hdb
      obtain ⟨ht, hn⟩ := toggle_favourite_ok_shape hdb
      have hb := inv_add_log (inv_of_eq h ({ a with store := r.2 }) rfl rfl rfl rfl ht hn)
        now "INFO" ("Toggled favourite for task id: " ++ toString task.id)
      exact inv_load_tasks hb.sync hb.fav hb.wf hb.selTopic

theorem inv_edit_task (now d : String) {a : App} (h : Inv a) :
    Inv (App.edit_task now d a).1 := by
  unfold App.edit_task
  dsimp only
  have h1 : Inv (App.add_log a now "INFO"
      ("Task: " ++ reprStr (a.tasks.get? a.selected))) := inv_add_log h _ _ _
  split
  · exact h1
  · rename_i task hget
    split
    · exact h1
    · rename_i r hdb
      obtain ⟨ht, hn⟩ := update_task_ok_shape hdb
      have hb := inv_add_log
        (inv_of_eq h1 ({ (App.add_log a now "INFO"
            ("Task: " ++ reprStr (a.tasks.get? a.selected))) with store := r.2 })
          rfl rfl rfl rfl ht hn)
        now "INFO" ("Successfully edited task, with id: " ++ toString task.id)
      exact inv_load_tasks hb.sync hb.fav hb.wf hb.selTopic

theorem inv_add_task (now d : String) {a : App} (h : Inv a) :
    Inv (App.add_task now d a) := by
  unfold App.add_task
  split
  · exact h
  · rename_i tp hget
    dsimp only
    split
    · exact h
    · have hb : Inv (App.add_log
          { a with store := (DbOperations.add_task a.store now tp.id
              (if utf8Len d > 20 then "Task " ++ String.mk (d.toList.take 20)
               else "Task " ++ d) d).2 }
          now "INFO" ("Added task: " ++ d)) :=
        inv_add_log
          (inv_of_eq h ({ a with store := (DbOperations.add_task a.store now tp.id
              (if utf8Len d > 20 then "Task " ++ String.mk (d.toList.take 20)
               else "Task " ++ d) d).2 })
            rfl rfl rfl rfl rfl rfl) _ _ _
      exact inv_load_tasks hb.sync hb.fav hb.wf hb.selTopic

theorem inv_add_task_with_details (now n d : String) {a : App} (h : Inv a) :
    Inv (App.add_task_with_details now n d a) := by
  unfold App.add_task_with_details
  split
  · exact h
  · rename_i tp hget
    dsimp only
    split
    · exact h
    · have hb : Inv (App.add_log
          { a with store := (DbOperations.add_task a.store now tp.id n d).2 }
          now "INFO" ("Added task: " ++ n ++ " - " ++ d)) :=
        inv_add_log
          (inv_of_eq h ({ a with store := (DbOperations.add_task a.store now tp.id n d).2 })
            rfl rfl rfl rfl rfl rfl) _ _ _
      exact inv_load_tasks hb.sync hb.fav hb.wf hb.selTopic

theorem inv_add_topic (now name : String) {a : App} (h : Inv a) :
    Inv (App.add_topic now name a) := by
  obtain ⟨hwf2, hmono, hnew⟩ := storeWF_add_topic a.store now name "" h.wf
  unfold App.add_topic
  dsimp only
  refine ⟨rfl, ?_, hwf2, ?_, ?_⟩
  · obtain ⟨t, ht, hnm⟩ := h.fav
    exact ⟨t, hmono t ht, hnm⟩
  · show a.selected_topic
      < (DbOperations.load_topics (DbOperations.add_topic a.store now name "").2).length
    rw [load_topics_length]
    have e1 : (DbOperations.add_topic a.store now name "").2.topics.length
        = a.store.topics.length + 1 := by
      show (a.store.topics ++ _).length = _
      rw [List.length_append]
      rfl
    have e2 := h.selTopic
    rw [h.sync, load_topics_length] at e2
    omega
  · exact h.selTask

theorem inv_delete_topic {a : App} (h : Inv a) :
    Inv (App.delete_topic a).1 := by
  unfold App.delete_topic
  split
  · exact h
  · rename_i tp hget
    dsimp only
    split
    · exact h
    · split
      · exact h
      · rename_i r hdb
        obtain ⟨hwf2, hfavpres⟩ := storeWF_delete_topic h.wf hdb
        dsimp only
        have hfav2 : ∃ t ∈ r.2.topics, t.name = "Favourites" := by
          obtain ⟨t, ht, hnm⟩ := h.fav
          exact ⟨t, hfavpres t ht hnm, hnm⟩
        have hlen : 0 < (DbOperations.load_topics r.2).length := by
          rw [load_topics_length]
          obtain ⟨t, ht, _⟩ := hfav2
          exact List.length_pos.mpr (List.ne_nil_of_mem ht)
        exact inv_load_tasks rfl hfav2 hwf2 hlen

/-- Setting the input mode to Normal preserves the invariant. -/
theorem inv_normal_after (x : App) (h : Inv x) :
    Inv { x with input_mode := InputMode.Normal } :=
  inv_of_eq h _ rfl rfl rfl rfl rfl rfl

set_option maxHeartbeats 1600000 in
theorem inv_stepNormalChar (now : String) (c : Char) {a : App} (h : Inv a) :
    Inv (stepNormalChar now a c) := by
  unfold stepNormalChar
  split
  · exact h
  · split
    · exact h
    · exact inv_of_eq h _ rfl rfl rfl rfl rfl rfl
  · exact inv_delete_task now h
  · exact inv_of_eq h _ rfl rfl rfl rfl rfl rfl
  · split
    · rename_i a2 heq
      have h2 := inv_toggle_favourite now h
      rw [heq] at h2
      exact h2
    · rename_i a2 e heq
      have h2 := inv_toggle_favourite now h
      rw [heq] at h2
      exact inv_add_log h2 _ _ _
  · exact inv_of_eq h _ rfl rfl rfl rfl rfl rfl
  · split
    · rename_i a2 heq
      have h2 := inv_toggle_task now h
      rw [heq] at h2
      exact h2
    · rename_i a2 e heq
      have h2 := inv_toggle_task now h
      rw [heq] at h2
      exact inv_add_log h2 _ _ _
  · split
    · rename_i hc
      refine ⟨h.sync, h.fav, h.wf, h.selTopic, fun hne => ?_⟩
      have hpos := List.length_pos.mpr hne
      show a.selected + 1 < a.tasks.length
      omega
    · exact h
  · split
    · rename_i hc
      refine ⟨h.sync, h.fav, h.wf, h.selTopic, fun hne => ?_⟩
      have := h.selTask hne
      show a.selected - 1 < a.tasks.length
      omega
    · exact h
  · split
    · rename_i hc
      have hb : Inv { a with selected_topic := a.selected_topic - 1 } := by
        refine ⟨h.sync, h.fav, h.wf, ?_, h.selTask⟩
        show a.selected_topic - 1 < a.topics.length
        have := h.selTopic
        omega
      have hc2 := inv_load_tasks hb.sync hb.fav hb.wf hb.selTopic
      exact ⟨hc2.sync, hc2.fav, hc2.wf, hc2.selTopic, fun hne => List.length_pos.mpr hne⟩
    · exact h
  · split
    · rename_i hc
      have hb : Inv { a with selected_topic := a.selected_topic + 1 } := by
        refine ⟨h.sync, h.fav, h.wf, ?_, h.selTask⟩
        show a.selected_topic + 1 < a.topics.length
        omega
      have hc2 := inv_load_tasks hb.sync hb.fav hb.wf hb.selTopic
      exact ⟨hc2.sync, hc2.fav, hc2.wf, hc2.selTopic, fun hne => List.length_pos.mpr hne⟩
    · exact h
  · exact inv_of_eq h _ rfl rfl rfl rfl rfl rfl
  · split
    · exact h
    · split
      · rename_i a2 heq
        have h2 := inv_delete_topic h
        rw [heq] at h2
        exact h2
      · rename_i a2 e heq
        have h2 := inv_delete_topic h
        rw [heq] at h2
        exact inv_add_log h2 _ _ _
  · exact h

set_option maxHeartbeats 800000 in
theorem inv_stepNormal (now : String) (k : Key) {a : App} (h : Inv a) :
    Inv (stepNormal now a k) := by
  unfold stepNormal
  split
  · exact inv_stepNormalChar now _ h
  · split
    · exact h
    · split
      · exact inv_of_eq h _ rfl rfl rfl rfl rfl rfl
      · exact inv_of_eq h _ rfl rfl rfl rfl rfl rfl
  · split
    · rename_i hc
      refine ⟨h.sync, h.fav, h.wf, h.selTopic, fun hne => ?_⟩
      have hpos := List.length_pos.mpr hne
      show a.selected + 1 < a.tasks.length
      omega
    · exact h
  · split
    · rename_i hc
      refine ⟨h.sync, h.fav, h.wf, h.selTopic, fun hne => ?_⟩
      have := h.selTask hne
      show a.selected - 1 < a.tasks.length
      omega
    · exact h
  · split
    · rename_i hc
      have hb : Inv { a with selected_topic := a.selected_topic - 1 } := by
        refine ⟨h.sync, h.fav, h.wf, ?_, h.selTask⟩
        show a.selected_topic - 1 < a.topics.length
        have := h.selTopic
        omega
      have hc2 := inv_load_tasks hb.sync hb.fav hb.wf hb.selTopic
      exact ⟨hc2.sync, hc2.fav, hc2.wf, hc2.selTopic, fun hne => List.length_pos.mpr hne⟩
    · exact h
  · split
    · rename_i hc
      have hb : Inv { a with selected_topic := a.selected_topic + 1 } := by
        refine ⟨h.sync, h.fav, h.wf, ?_, h.selTask⟩
        show a.selected_topic + 1 < a.topics.length
        omega
      have hc2 := inv_load_tasks hb.sync hb.fav hb.wf hb.selTopic
      exact ⟨hc2.sync, hc2.fav, hc2.wf, hc2.selTopic, fun hne => List.length_pos.mpr hne⟩
    · exact h
  · exact inv_of_eq h _ rfl rfl rfl rfl rfl rfl
  · split
    · exact inv_of_eq h _ rfl rfl rfl rfl rfl rfl
    · exact h
  · exact h

theorem inv_stepAddingTask (now : String) (k : Key) {a : App} (h : Inv a) :
    Inv (stepAddingTask now a k) := by
  unfold stepAddingTask
  split
  · split
    · exact inv_of_eq h _ rfl rfl rfl rfl rfl rfl
    · exact inv_of_eq (inv_add_task now a.input h) _ rfl rfl rfl rfl rfl rfl
  · exact inv_of_eq h _ rfl rfl rfl rfl rfl rfl
  · exact inv_of_eq h _ rfl rfl rfl rfl rfl rfl
  · exact inv_of_eq h _ rfl rfl rfl rfl rfl rfl
  · exact h

theorem inv_stepAddingTaskName (k : Key) {a : App} (h : Inv a) :
    Inv (stepAddingTaskName a k) := by
  unfold stepAddingTaskName
  split
  · split
    · exact h
    · exact inv_of_eq h _ rfl rfl rfl rfl rfl rfl
  · exact inv_of_eq h _ rfl rfl rfl rfl rfl rfl
  · exact inv_of_eq h _ rfl rfl rfl rfl rfl rfl
  · exact inv_of_eq h _ rfl rfl rfl rfl rfl rfl
  · exact h

theorem inv_stepAddingTaskDescription (now : String) (k : Key) {a : App} (h : Inv a) :
    Inv (stepAddingTaskDescription now a k) := by
  unfold stepAddingTaskDescription
  split
  · split
    · exact h
    · exact inv_of_eq
        (inv_of_eq (inv_add_task_with_details now a.task_name_input a.task_description_input h)
          _ rfl rfl rfl rfl rfl rfl)
        _ rfl rfl rfl rfl rfl rfl
  · exact inv_of_eq h _ rfl rfl rfl rfl rfl rfl
  · exact inv_of_eq h _ rfl rfl rfl rfl rfl rfl
  · exact inv_of_eq h _ rfl rfl rfl rfl rfl rfl
  · exact inv_of_eq h _ rfl rfl rfl rfl rfl rfl
  · exact h

theorem inv_stepEditingTask (now : String) (k : Key) {a : App} (h : Inv a) :
    Inv (stepEditingTask now a k) := by
  unfold stepEditingTask
  split
  · split
    · exact inv_of_eq h _ rfl rfl rfl rfl rfl rfl
    · split
      · rename_i a2 heq
        have h2 := inv_edit_task now a.input h
        rw [heq] at h2
        exact inv_of_eq h2 _ rfl rfl rfl rfl rfl rfl
      · rename_i a2 e heq
        have h2 := inv_edit_task now a.input h
        rw [heq] at h2
        have h3 : Inv a2 := h2
        exact inv_normal_after (App.add_log a2 now "ERROR" "Failed to edit task")
          (inv_add_log h3 now "ERROR" "Failed to edit task")
  · exact inv_of_eq h _ rfl rfl rfl rfl rfl rfl
  · exact inv_of_eq h _ rfl rfl rfl rfl rfl rfl
  · exact inv_of_eq h _ rfl rfl rfl rfl rfl rfl
  · exact h

theorem inv_stepAddingTopic (now : String) (k : Key) {a : App} (h : Inv a) :
    Inv (stepAddingTopic now a k) := by
  unfold stepAddingTopic
  split
  · split
    · exact inv_of_eq h _ rfl rfl rfl rfl rfl rfl
    · exact inv_normal_after
        (App.add_log (App.add_topic now a.input a) now "INFO"
          ("Added topic: " ++ (App.add_topic now a.input a).input))
        (inv_add_log (inv_add_topic now a.input h) now "INFO"
          ("Added topic: " ++ (App.add_topic now a.input a).input))
  · exact inv_of_eq h _ rfl rfl rfl rfl rfl rfl
  · exact inv_of_eq h _ rfl rfl rfl rfl rfl rfl
  · exact inv_of_eq h _ rfl rfl rfl rfl rfl rfl
  · exact h

theorem inv_stepHelp (k : Key) {a : App} (h : Inv a) :
    Inv (stepHelp a k) := by
  unfold stepHelp
  split
  · exact inv_of_eq h _ rfl rfl rfl rfl rfl rfl
  · exact inv_of_eq h _ rfl rfl rfl rfl rfl rfl
  · exact h

/-- Every event-loop iteration preserves the invariant. -/
theorem inv_step (now : String) (k : Key) {a : App} (h : Inv a) :
    Inv (step now a k) := by
  unfold step
  split
  · exact inv_stepNormal now k h
  · exact inv_stepAddingTask now k h
  · exact inv_stepAddingTaskName k h
  · exact inv_stepAddingTaskDescription now k h
  · exact inv_stepEditingTask now k h
  · exact h
  · exact inv_stepAddingTopic now k h
  · exact inv_stepHelp k h

/-- Any run of the event loop preserves the invariant. -/
theorem inv_steps (evs : List (String × Key)) {a : App} (h : Inv a) :
    Inv (steps a evs) := by
  induction evs generalizing a with
  | nil => exact h
  | cons e es ih => exact ih (inv_step e.1 e.2 h)

/-- Facts about one bootstrap block: the topic cache stays synchronized, the
table stays well-formed, a row of the ensured name exists afterwards, old rows
are kept, and the tasks/selection state is untouched. -/
theorem ensure_topic_facts (now name : String) (a : App)
    (h1 : a.topics = DbOperations.load_topics a.store)
    (h2 : StoreTopicsWF a.store) :
    (App.ensureTopic now name a).topics
      = DbOperations.load_topics (App.ensureTopic now name a).store ∧
    StoreTopicsWF (App.ensureTopic now name a).store ∧
    (∃ t ∈ (App.ensureTopic now name a).store.topics, t.name = name) ∧
    (∀ t ∈ a.store.topics, t ∈ (App.ensureTopic now name a).store.topics) ∧
    (App.ensureTopic now name a).tasks = a.tasks ∧
    (App.ensureTopic now name a).selected = a.selected ∧
    (App.ensureTopic now name a).selected_topic = a.selected_topic := by
  unfold App.ensureTopic
  split
  · rename_i hany
    refine ⟨h1, h2, ?_, fun t ht => ht, rfl, rfl, rfl⟩
    obtain ⟨t, ht, hp⟩ := List.any_eq_true.mp hany
    rw [h1] at ht
    exact ⟨t, mem_sortTopics.mp ht, beq_iff_eq.mp hp⟩
  · obtain ⟨hwf2, hmono, hnew⟩ := storeWF_add_topic a.store now name "" h2
    exact ⟨rfl, hwf2, hnew, hmono, rfl, rfl, rfl⟩

/-- Facts about the full three-topic bootstrap chain of `App::new`. -/
theorem inv_bootstrap_chain (now : String) (b0 : App)
    (h1 : b0.topics = DbOperations.load_topics b0.store)
    (h2 : StoreTopicsWF b0.store)
    (h3 : b0.selected_topic = 0) :
    (App.ensureTopic now "Completed" (App.ensureTopic now "Default" (App.ensureTopic now "Favourites" b0))).topics
      = DbOperations.load_topics
          (App.ensureTopic now "Completed" (App.ensureTopic now "Default" (App.ensureTopic now "Favourites" b0))).store ∧
    StoreTopicsWF
      (App.ensureTopic now "Completed" (App.ensureTopic now "Default" (App.ensureTopic now "Favourites" b0))).store ∧
    (∃ t ∈ (App.ensureTopic now "Completed"
        (App.ensureTopic now "Default" (App.ensureTopic now "Favourites" b0))).store.topics,
      t.name = "Favourites") ∧
    (App.ensureTopic now "Completed" (App.ensureTopic now "Default" (App.ensureTopic now "Favourites" b0))).selected_topic
      = 0 := by
  have E1 := ensure_topic_facts now "Favourites" b0 h1 h2
  have E2 := ensure_topic_facts now "Default" (App.ensureTopic now "Favourites" b0) E1.1 E1.2.1
  have E3 := ensure_topic_facts now "Completed"
    (App.ensureTopic now "Default" (App.ensureTopic now "Favourites" b0)) E2.1 E2.2.1
  refine ⟨E3.1, E3.2.1, ?_, ?_⟩
  · obtain ⟨t, ht, hnm⟩ := E1.2.2.1
    exact ⟨t, E3.2.2.2.1 t (E2.2.2.2.1 t ht), hnm⟩
  · rw [E3.2.2.2.2.2.2, E2.2.2.2.2.2.2, E1.2.2.2.2.2.2, h3]

/-- The startup sequence establishes the invariant, for any initial store with
a well-formed topic table. -/
theorem inv_appNew (s0 : Store) (now : String) (h : StoreTopicsWF s0) :
    Inv (App.appNew s0 now) := by
  unfold App.appNew
  dsimp only
  obtain ⟨hs, hw, hf, hz⟩ :=
    inv_bootstrap_chain now (App.load_topics (App.initialApp s0)) rfl h rfl
  cases hidx : findIdxFrom (fun t => t.name == "Favourites")
      (App.add_log
        (App.ensureTopic now "Completed" (App.ensureTopic now "Default"
          (App.ensureTopic now "Favourites" (App.load_topics (App.initialApp s0)))))
        now "INFO" "Topics loaded").topics with
  | some i =>
    refine inv_add_log (inv_add_log ?_ now "INFO" "Tasks loaded") now "INFO" "Application started"
    refine inv_load_tasks ?_ ?_ ?_ ?_
    · exact hs
    · exact hf
    · exact hw
    · exact findIdxFrom_lt_length hidx
  | none =>
    refine inv_add_log (inv_add_log ?_ now "INFO" "Tasks loaded") now "INFO" "Application started"
    refine inv_load_tasks ?_ ?_ ?_ ?_
    · exact hs
    · exact hf
    · exact hw
    · have hpos : 0 < (App.ensureTopic now "Completed" (App.ensureTopic now "Default"
          (App.ensureTopic now "Favourites" (App.load_topics (App.initialApp s0))))).topics.length := by
        rw [hs, load_topics_length]
        obtain ⟨t, ht, _⟩ := hf
        exact List.length_pos.mpr (List.ne_nil_of_mem ht)
      show (App.ensureTopic now "Completed" (App.ensureTopic now "Default"
          (App.ensureTopic now "Favourites" (App.load_topics (App.initialApp s0))))).selected_topic
        < (App.ensureTopic now "Completed" (App.ensureTopic now "Default"
          (App.ensureTopic now "Favourites" (App.load_topics (App.initialApp s0))))).topics.length
      rw [hz]
      exact hpos

/-- The event trace refuting claim C3 as stated: create a topic `Work`, move
to it, create three tasks, select the last one, then delete the topic. The
deletion resets `selected_topic` to 0 (Favourites) and reloads the (empty)
Favourites view, but `selected` keeps its old value 2 because the clamp in
`App::load_tasks` only fires on a non-empty list. -/
def c3Events : List (String × Key) :=
  [("T", .char 'N'), ("T", .char 'W'), ("T", .char 'o'), ("T", .char 'r'),
   ("T", .char 'k'), ("T", .enter),
   ("T", .char 'l'), ("T", .char 'l'), ("T", .char 'l'),
   ("T", .char 'a'), ("T", .char 'x'), ("T", .enter), ("T", .enter),
   ("T", .char 'a'), ("T", .char 'x'), ("T", .enter), ("T", .enter),
   ("T", .char 'a'), ("T", .char 'x'), ("T", .enter), ("T", .enter),
   ("T", .char 'j'), ("T", .char 'j'), ("T", .char 'X')]

/-- Claim C3 is false as stated: after the event trace `c3Events` from startup
on an empty store, the task list is empty while the selected task index is
still 2, not 0 — the "`selected = 0` when `tasks` is empty" clause of the
claimed invariant is violated in a reachable state. -/
theorem C3_counterexample_selected_not_reset :
    (steps (App.appNew emptyStore "T") c3Events).tasks = [] ∧
    (steps (App.appNew emptyStore "T") c3Events).selected = 2 ∧
    (steps (App.appNew emptyStore "T") c3Events).selected ≠ 0 :=
  ⟨rfl, rfl, by decide⟩

/-- Claim C3 (amended): in every state reachable from startup (on any initial
store whose topic table has duplicate-free ids below the autoincrement
counter) by any sequence of events, the topic list is non-empty and
`selected_topic` is in `[0, topics.len())`, and whenever the task list is
non-empty the selected task index is in `[0, tasks.len())` (deletions and
reloads clamp it downward); however, when a reload empties the task list,
`selected` may keep its old non-zero value, so the "`0` when `tasks` is
empty" clause of the original claim does not hold. -/
theorem C3_amended_selection_invariant (s0 : Store) (now : String)
    (evs : List (String × Key))
    (h1 : (s0.topics.map (fun t => t.id)).Nodup)
    (h2 : ∀ t ∈ s0.topics, t.id < s0.nextTopicId) :
    (steps (App.appNew s0 now) evs).topics ≠ [] ∧
    (steps (App.appNew s0 now) evs).selected_topic
      < (steps (App.appNew s0 now) evs).topics.length ∧
    ((steps (App.appNew s0 now) evs).tasks ≠ [] →
      (steps (App.appNew s0 now) evs).selected
        < (steps (App.appNew s0 now) evs).tasks.length) := by
  have hinv := inv_steps evs (inv_appNew s0 now ⟨h1, h2⟩)
  refine ⟨?_, hinv.selTopic, hinv.selTask⟩
  intro hc
  have := hinv.selTopic
  rw [hc] at this
  cases (Nat.not_lt_zero _) this

/-- Witness for the amended claim C3 at the concrete trace `c3Events` from the
empty store (the very trace refuting the original claim satisfies the amended
invariant). -/
theorem C3_amended_selection_invariant_witness :
    (steps (App.appNew emptyStore "T") c3Events).topics ≠ [] ∧
    (steps (App.appNew emptyStore "T") c3Events).selected_topic
      < (steps (App.appNew emptyStore "T") c3Events).topics.length ∧
    ((steps (App.appNew emptyStore "T") c3Events).tasks ≠ [] →
      (steps (App.appNew emptyStore "T") c3Events).selected
        < (steps (App.appNew emptyStore "T") c3Events).tasks.length) :=
  C3_amended_selection_invariant emptyStore "T" c3Events (by decide) (by decide)

end TaskManager
